import Mathlib

/-!
# Verification of the PR-description extension's extraction-and-fallback pipeline

Shallow embedding of the JavaScript sources (content script, background
dispatcher and local synthesizer).  JS strings are modelled by `String`
(operations re-implemented over `String.data` to match JS semantics), DOM
query surfaces by explicit structures of query functions, and the outbound
HTTP call by an explicit outcome value.
-/

namespace PRScript

/-! ## JS string primitives -/

/-- Whitespace class used by JS `trim` and the regex class `\s`. -/
def isWs (c : Char) : Bool := c.isWhitespace

/-- Drop whitespace from both ends of a character list. -/
def trimL (cs : List Char) : List Char :=
  ((cs.dropWhile isWs).reverse.dropWhile isWs).reverse

/-- Model of JS `String.prototype.trim`. -/
def jsTrim (s : String) : String := ⟨trimL s.data⟩

/-- `startsWithL hay needle`: does `hay` begin with `needle`? (JS `startsWith`.) -/
def startsWithL : List Char → List Char → Bool
  | _, [] => true
  | [], _ :: _ => false
  | c :: cs, d :: ds => c = d && startsWithL cs ds

/-- Does `needle` occur as a contiguous run anywhere in `hay`? (JS `includes`.) -/
def containsL (needle : List Char) : List Char → Bool
  | [] => startsWithL [] needle
  | c :: cs => startsWithL (c :: cs) needle || containsL needle cs

/-- Model of JS `s.includes(sub)`. -/
def jsIncludes (s sub : String) : Bool := containsL sub.data s.data

/-- Model of JS `s.startsWith(pre)`. -/
def jsStartsWith (s pre : String) : Bool := startsWithL s.data pre.data

/-- Model of JS `s.toLowerCase()` (ASCII as in all strings this code handles). -/
def jsToLower (s : String) : String := ⟨s.data.map Char.toLower⟩

/-- Split on a separator character, keeping empty segments (JS `split(sep)`). -/
def splitChAux (sep : Char) : List Char → List Char → List String
  | [], acc => [⟨acc.reverse⟩]
  | c :: cs, acc =>
    if c = sep then ⟨acc.reverse⟩ :: splitChAux sep cs []
    else splitChAux sep cs (c :: acc)

/-- Model of JS `s.split(sep)` for a one-character separator. -/
def jsSplitChar (sep : Char) (s : String) : List String := splitChAux sep s.data []

/-- Model of JS `s.split('\n')`. -/
def jsSplitNL (s : String) : List String := jsSplitChar '\n' s

/-- Model of JS `Array.prototype.join(sep)`. -/
def jsJoin (sep : String) : List String → String
  | [] => ""
  | [x] => x
  | x :: y :: rest => x ++ sep ++ jsJoin sep (y :: rest)

/-- Model of JS `s.replace(/\s+/g, ' ')`: each maximal whitespace run becomes
one space.  The flag records whether the previous character belonged to a
(already emitted) whitespace run. -/
def collapseWsL (inRun : Bool) : List Char → List Char
  | [] => []
  | c :: cs =>
    if isWs c then
      if inRun then collapseWsL true cs else ' ' :: collapseWsL true cs
    else c :: collapseWsL false cs

/-- Model of JS `s.replace(/\s+/g, ' ')`. -/
def jsCollapseWs (s : String) : String := ⟨collapseWsL false s.data⟩

/-- Remove the first occurrence of `needle` from a character list
(JS `replace(pat, '')` with a string pattern replaces only the first hit). -/
def removeFirstL (needle : List Char) : List Char → List Char
  | [] => []
  | c :: cs =>
    if startsWithL (c :: cs) needle then (c :: cs).drop needle.length
    else c :: removeFirstL needle cs

/-- Model of JS `s.replace(pat, '')` for a plain-string pattern. -/
def jsRemoveFirst (s pat : String) : String := ⟨removeFirstL pat.data s.data⟩

/-- Numeric value of a digit run (used to model `parseInt` on `\d+` captures). -/
def parseDigits (cs : List Char) : Nat :=
  cs.foldl (fun n c => n * 10 + (c.toNat - 48)) 0

/-- Model of the JS test `text.match(/^\d+$/)`: non-empty and all digits. -/
def isPureDigits (s : String) : Bool := !s.data.isEmpty && s.data.all Char.isDigit

/-- Model of `[...new Set(xs)]`: deduplicate, keeping first occurrences in order. -/
def jsSetDedup (l : List String) : List String :=
  l.foldl (fun acc x => if acc.contains x then acc else acc ++ [x]) []

/-- Model of `list.map((x, i) => `${i + 1}. ${x}`).join('\n')`. -/
def jsNumberedList (l : List String) : String :=
  jsJoin "\n" (l.enum.map fun p => Nat.repr (p.1 + 1) ++ ". " ++ p.2)

/-! ## Data model (FileChange / CodeChange records produced by the extractor
and consumed by the local synthesizer) -/

/-- A classified diff line (`{content, type, info, context, lineNumber}`
pushed into `addedChunk` / `removedChunk` / `contextLines`). -/
structure LineRec where
  content : String
  type : String
  info : String
  context : String
  lineNumber : Nat
deriving DecidableEq, Repr

/-- A code-change record.  `modification` is the hunk record packaged by
`extractCodeChanges`; its `summary` holds the value actually produced at the
call site (an array, see `hoistedChunkSummary`).  `simpleAddition` /
`simpleDeletion` are the records of `extractSimpleCodeChanges`
(`{type, content, context: 'code'}`: they carry no `summary`/`added`/`removed`
fields, which JS consumers guard with truthiness checks). -/
inductive ChangeRec where
  | modification (context : List LineRec) (added removed : List LineRec) (summary : List String)
  | simpleAddition (content : String)
  | simpleDeletion (content : String)
deriving DecidableEq, Repr

/-- File status: `extractSingleFileChange` only ever assigns one of these four
string values, and every consumer compares against exactly these literals. -/
inductive FileStatus where
  | added | modified | deleted | renamed
deriving DecidableEq, Repr

/-- The string each status renders as in templates. -/
def FileStatus.str : FileStatus → String
  | .added => "added"
  | .modified => "modified"
  | .deleted => "deleted"
  | .renamed => "renamed"

/-- A single file change record. -/
structure FileRec where
  filename : String
  status : FileStatus
  additions : Int
  deletions : Int
  changes : List ChangeRec
deriving DecidableEq, Repr

/-- Overall stats of a change set. -/
structure Stats where
  filesChanged : Int
  additions : Int
  deletions : Int
deriving DecidableEq, Repr

/-- The aggregate passed to the synthesizer/dispatcher. -/
structure FileChanges where
  files : List FileRec
  stats : Stats
  summary : List String
deriving DecidableEq, Repr

/-! ## Local Description Synthesizer (`generateLocalPRDescription`, final
multi-provider background script) -/

/-- One line of `generateBasicFeatureSummary`. -/
def featureLine (commit : String) : String :=
  let lower := jsToLower commit
  if jsIncludes lower "add" || jsIncludes lower "create" then
    "Added new functionality as described in commit: \"" ++ commit ++ "\""
  else if jsIncludes lower "fix" || jsIncludes lower "bug" then
    "Fixed issues as described in commit: \"" ++ commit ++ "\""
  else if jsIncludes lower "update" || jsIncludes lower "improve" then
    "Updated and improved functionality as described in commit: \"" ++ commit ++ "\""
  else if jsIncludes lower "remove" || jsIncludes lower "delete" then
    "Removed/cleaned up code as described in commit: \"" ++ commit ++ "\""
  else
    "Implemented changes as described in commit: \"" ++ commit ++ "\""

/-- `generateBasicFeatureSummary(commits)`. -/
def generateBasicFeatureSummary (commits : List String) : String :=
  jsJoin "\n" (commits.map featureLine)

/-- File "purpose" chosen by `generateDetailedFileAnalysis`. -/
def filePurpose (fileName fileExt : String) : String :=
  if jsIncludes (jsToLower fileName) "api" || jsIncludes (jsToLower fileName) "service" then
    "API service file"
  else if jsIncludes (jsToLower fileName) "component" then "React component"
  else if jsIncludes (jsToLower fileName) "hook" then "React hook"
  else if fileExt == "css" || fileExt == "scss" then "Styling file"
  else if fileExt == "js" || fileExt == "jsx" then "JavaScript functionality"
  else if fileExt == "html" then "HTML structure"
  else if fileExt == "json" then "Configuration file"
  else "Code file"

/-- Per-file accumulators of `generateDetailedFileAnalysis`'s inner loop. -/
structure FileAnalysisAcc where
  functionalities : List String
  addedFunctions : List String
  apiCalls : List String
  components : List String
  contexts : List String
deriving DecidableEq, Repr

/-- The `file.changes.forEach` body of `generateDetailedFileAnalysis`.
A `modification`'s `summary` is an array, always truthy in JS; pushing it into
`functionalities` and later string-joining renders it as its comma-joined
elements.  The `simple*` records have no `summary`/`added`/`removed` fields,
so all three guarded accesses are skipped. -/
def fileAnalysisStep (acc : FileAnalysisAcc) : ChangeRec → FileAnalysisAcc
  | .modification _ added removed summary =>
    let acc := { acc with functionalities := acc.functionalities ++ [jsJoin "," summary] }
    let acc := added.foldl (fun a r =>
      let a :=
        if r.type == "function" && r.info != "" then
          { a with addedFunctions := a.addedFunctions ++ [r.info] }
        else if r.type == "apiIntegration" && r.info != "" then
          { a with apiCalls := a.apiCalls ++ [r.info] }
        else if r.type == "component" && r.info != "" then
          { a with components := a.components ++ [r.info] }
        else a
      if r.context != "" then { a with contexts := a.contexts ++ [r.context] } else a) acc
    removed.foldl (fun a r =>
      if r.context != "" then
        { a with contexts := a.contexts ++ ["removed " ++ jsToLower r.context] }
      else a) acc
  | .simpleAddition _ => acc
  | .simpleDeletion _ => acc

/-- `generateDetailedFileAnalysis(files)`: the analysis string for one file. -/
def fileAnalysis (file : FileRec) : String :=
  let analysis := "**" ++ file.filename ++ "**"
  let analysis :=
    if file.status != FileStatus.modified then
      analysis ++ " (" ++ file.status.str ++ ")"
    else analysis
  let analysis := analysis ++ ":\n"
  let fileName := (jsSplitChar '/' file.filename).getLastD ""
  let fileExt := jsToLower ((jsSplitChar '.' fileName).getLastD "")
  let purpose := filePurpose fileName fileExt
  let analysis := analysis ++ "- " ++ purpose ++ " handling "
  let analysis :=
    if file.changes.length > 0 then
      let acc := file.changes.foldl fileAnalysisStep ⟨[], [], [], [], []⟩
      let descriptions : List String := []
      let descriptions :=
        if acc.functionalities.length > 0 then descriptions ++ acc.functionalities
        else descriptions
      let uniqueContexts := jsSetDedup acc.contexts
      let descriptions :=
        if uniqueContexts.length > 0 then descriptions ++ uniqueContexts.map jsToLower
        else descriptions
      let descriptions :=
        if acc.addedFunctions.length > 0 then
          descriptions ++ ["new functions (" ++ jsJoin ", " acc.addedFunctions ++ ")"]
        else descriptions
      let descriptions :=
        if acc.apiCalls.length > 0 then
          descriptions ++ ["API endpoints (" ++ jsJoin ", " acc.apiCalls ++ ")"]
        else descriptions
      let descriptions :=
        if acc.components.length > 0 then
          descriptions ++ ["React components (" ++ jsJoin ", " acc.components ++ ")"]
        else descriptions
      if descriptions.length > 0 then
        analysis ++ jsJoin ", " (jsSetDedup descriptions)
      else analysis ++ "code improvements and functionality updates"
    else
      if file.status == FileStatus.added then
        analysis ++ "new " ++ jsToLower purpose ++ " implementation"
      else analysis ++ "existing functionality updates"
  if file.additions > 0 || file.deletions > 0 then
    analysis ++ " (+" ++ toString file.additions ++ " -" ++ toString file.deletions ++ " lines)"
  else analysis

/-- `generateDetailedFileAnalysis(files)`. -/
def generateDetailedFileAnalysis (files : List FileRec) : String :=
  jsJoin "\n" (files.map fileAnalysis)

/-- The commit filter of `generateLocalPRDescription`. -/
def cleanCommitsOf (commits : List String) : List String :=
  commits.filter fun c =>
    c != "" && c.length > 5 && !(jsIncludes (jsToLower c) "view commit details")

/-- Commit-based title generation (the `else` branch of the title logic). -/
def commitTitle (cleanCommits : List String) : String :=
  if cleanCommits.length == 1 then cleanCommits.headD ""
  else if cleanCommits.length > 1 then
    let hasFeature := cleanCommits.any fun c =>
      jsIncludes (jsToLower c) "add" || jsIncludes (jsToLower c) "feature"
    let hasFix := cleanCommits.any fun c =>
      jsIncludes (jsToLower c) "fix" || jsIncludes (jsToLower c) "bug"
    let hasUpdate := cleanCommits.any fun c =>
      jsIncludes (jsToLower c) "update" || jsIncludes (jsToLower c) "improve"
    if hasFeature then "Add new features and improvements"
    else if hasFix then "Fix bugs and issues"
    else if hasUpdate then "Update and improve functionality"
    else "Multiple improvements and changes"
  else "Code improvements"

/-- File-status-based title generation (the detailed-analysis branch). -/
def fileBasedTitle (files : List FileRec) : String :=
  let addedFiles := files.filter fun f => f.status == FileStatus.added
  let modifiedFiles := files.filter fun f => f.status == FileStatus.modified
  let deletedFiles := files.filter fun f => f.status == FileStatus.deleted
  if addedFiles.length > 0 then
    let fileTypes := jsSetDedup (addedFiles.map fun f =>
      (jsSplitChar '.' f.filename).getLastD "")
    let title := "Add " ++
      (if addedFiles.length > 1 then "new components and features" else "new functionality")
    if fileTypes.length == 1 then title ++ " (" ++ fileTypes.headD "" ++ " files)"
    else title
  else if modifiedFiles.length > 0 then "Update and improve existing functionality"
  else if deletedFiles.length > 0 then "Remove deprecated code and files"
  else "Refactor and optimize codebase"

/-- The title computed by `generateLocalPRDescription`. -/
def localTitle (commits : List String) (fileChanges : Option FileChanges)
    (detailedAnalysis : Bool) : String :=
  let cleanCommits := cleanCommitsOf commits
  match fileChanges, detailedAnalysis with
  | some fc, true =>
    if fc.files.length > 0 then fileBasedTitle fc.files else commitTitle cleanCommits
  | some _, false => commitTitle cleanCommits
  | none, _ => commitTitle cleanCommits

/-- The description body computed by `generateLocalPRDescription`. -/
def localDescription (commits : List String) (fileChanges : Option FileChanges)
    (detailedAnalysis : Bool) : String :=
  let cleanCommits := cleanCommitsOf commits
  let detailed :=
    match fileChanges, detailedAnalysis with
    | some fc, true => if fc.files.length > 0 then some fc else none
    | _, _ => none
  match detailed with
  | some fc =>
    jsNumberedList cleanCommits ++ "\n\n## Key Features Added/Modified\n\n" ++
      generateDetailedFileAnalysis fc.files ++ "\n\nHii Amruth"
  | none =>
    jsNumberedList cleanCommits ++ "\n\n## Key Features Added/Modified\n\n" ++
      generateBasicFeatureSummary cleanCommits ++ "\n\nHii Amruth"

/-- `generateLocalPRDescription(commits, fileChanges, detailedAnalysis)`:
the final `Title: .. / Description: ..` template. -/
def generateLocalPRDescription (commits : List String) (fileChanges : Option FileChanges)
    (detailedAnalysis : Bool) : String :=
  "Title: " ++ localTitle commits fileChanges detailedAnalysis ++
    "\n\nDescription:\n" ++ localDescription commits fileChanges detailedAnalysis

/-! ## Provider Request Dispatcher (`generatePRDescription`, background script,
active provider `openrouter`) -/

/-- Outcome of the `fetch` to the provider endpoint.  `networkError` is a
thrown fetch (caught by the surrounding `try`); `response ok content` is an
HTTP response with `ok = response.ok` and `content` the value of
`data.choices[0].message.content` when the body parses and has that shape
(`none` when reading it throws, which the same `try` catches). -/
inductive FetchOutcome where
  | networkError
  | response (ok : Bool) (content : Option String)
deriving DecidableEq, Repr

/-- `outcome.failed`: every outcome other than an ok response with readable
content. -/
def FetchOutcome.failed : FetchOutcome → Bool
  | .response true (some _) => false
  | _ => true

/-- `generatePRDescription(commits, fileChanges, detailedAnalysis)` with the
static `openrouter` provider.  `apiKey` is the credential `getApiKey()`
resolves (`none` = null/undefined; the JS guard `if (!apiKey)` also treats the
empty string as missing).  Prompt construction is pure string templating and
does not influence the returned value, which is either the provider content or
the local synthesis; the function never throws in any of these paths. -/
def generatePRDescription (commits : List String) (fileChanges : Option FileChanges)
    (detailedAnalysis : Bool) (apiKey : Option String) (outcome : FetchOutcome) : String :=
  match apiKey with
  | none => generateLocalPRDescription commits fileChanges detailedAnalysis
  | some key =>
    if key == "" then generateLocalPRDescription commits fileChanges detailedAnalysis
    else
      match outcome with
      | .networkError => generateLocalPRDescription commits fileChanges detailedAnalysis
      | .response ok content =>
        if ok then
          match content with
          | some text => text
          | none => generateLocalPRDescription commits fileChanges detailedAnalysis
        else generateLocalPRDescription commits fileChanges detailedAnalysis

/-! ## Form Injector parsing (`insertDescription`, content script) -/

/-- Loop state of the title/body parsing loop in `insertDescription`. -/
structure ParseState where
  title : String
  body : String
  isDescription : Bool
deriving DecidableEq, Repr

/-- One iteration of the `for (const line of lines)` loop. -/
def insertStep (st : ParseState) (line : String) : ParseState :=
  if jsStartsWith line "Title:" then
    { st with title := jsTrim (jsRemoveFirst line "Title:") }
  else if jsIncludes (jsToLower line) "description:" then
    { st with isDescription := true }
  else if st.isDescription && (jsTrim line != "") then
    { st with body := st.body ++ line ++ "\n" }
  else st

/-- The title/body parser of `insertDescription`, including the first-line
fallback used when no `Title:` line produced a non-empty title. -/
def parseTitleBody (description : String) : String × String :=
  let lines := jsSplitNL description
  let st := lines.foldl insertStep ⟨"", "", false⟩
  if st.title == "" && lines.length > 0 then
    (jsTrim (lines.headD ""), jsTrim (jsJoin "\n" lines.tail))
  else (st.title, st.body)

/-! ## Commit message extraction (`extractCommitMessages`, content script) -/

/-- DOM surface seen by `extractCommitMessages`.  `selectorTexts sel` is the
`textContent` of each element matching `sel` (in document order);
`commitLinkTexts` is, for each `a[href*="/commit/"]` link of strategy 2, the
`textContent` of the message element its
`closest(..)?.querySelector(..) || .. || link` chain resolves to;
`bodyText` is `document.body.textContent`. -/
structure CommitDoc where
  selectorTexts : String → List String
  commitLinkTexts : List String
  bodyText : String

/-- The ordered selector list of the final `extractCommitMessages`. -/
def commitSelectors : List String :=
  [".commit-message", ".commit-title", "[data-testid=\"commit-message\"]",
   ".js-commit-message", ".commit-summary", ".commit-desc", "a[href*=\"/commit/\"]"]

/-- `text.replace(/committed.*$/i, '')`: cut at the first case-insensitive
occurrence of `committed` whose remainder holds no newline (`.*$` cannot cross
one); if no such occurrence exists, the text is unchanged. -/
def cutCommittedL : List Char → List Char
  | [] => []
  | c :: cs =>
    if startsWithL ((c :: cs).map Char.toLower) "committed".data
        && !(c :: cs).contains '\n' then []
    else c :: cutCommittedL cs

/-- The regex class `\w`. -/
def isWordChar (c : Char) : Bool := c.isAlphanum || c == '_'

/-- `text.replace(/^\w+\s+committed\s+/i, '')`.  Because `\w`, `\s` and the
literal are over disjoint character classes, maximal-run matching is exactly
the regex's backtracking behaviour. -/
def stripWordCommittedL (cs : List Char) : List Char :=
  let w := cs.takeWhile isWordChar
  let rest1 := cs.dropWhile isWordChar
  let sp := rest1.takeWhile isWs
  let rest2 := rest1.dropWhile isWs
  if w.isEmpty || sp.isEmpty then cs
  else if startsWithL (rest2.map Char.toLower) "committed".data then
    let rest3 := rest2.drop 9
    if (rest3.takeWhile isWs).isEmpty then cs else rest3.dropWhile isWs
  else cs

/-- Remove the first case-insensitive occurrence of `needle` (given in
lowercase), as in `replace(/view commit details/i, '')`. -/
def removeCIFirstL (needle : List Char) : List Char → List Char
  | [] => []
  | c :: cs =>
    if startsWithL ((c :: cs).map Char.toLower) needle then (c :: cs).drop needle.length
    else c :: removeCIFirstL needle cs

/-- The four cleanup replacements plus the final `trim` shared by the
selector strategy and the commit-link strategy. -/
def cleanupCommitText (text : String) : String :=
  let text := jsCollapseWs text
  let text : String := ⟨cutCommittedL text.data⟩
  let text : String := ⟨stripWordCommittedL text.data⟩
  let text : String := ⟨removeCIFirstL "view commit details".data text.data⟩
  jsTrim text

/-- The element-mapping function of selector strategy 1: boilerplate filter
on the trimmed text, then cleanup; `none` models the `null`s removed by the
subsequent `.filter` (the extra `length > 0` there is implied by
`length > 10`). -/
def cleanSelectorText (raw : String) : Option String :=
  let text := jsTrim raw
  if text.length < 10 || jsIncludes text "files changed" ||
      jsIncludes text "contributor" || jsIncludes text "commits" ||
      isPureDigits text || jsIncludes text "committed" || jsIncludes text "ago" then
    none
  else
    let text := cleanupCommitText text
    if text.length > 10 then some text else none

/-- Strategy 1: try each selector in order; the first one whose elements
survive cleaning provides the result. -/
def selectorCascade (doc : CommitDoc) : List String → List String
  | [] => []
  | sel :: rest =>
    let elements := doc.selectorTexts sel
    if elements.length > 0 then
      let extractedTexts := elements.filterMap cleanSelectorText
      if extractedTexts.length > 0 then extractedTexts
      else selectorCascade doc rest
    else selectorCascade doc rest

/-- Strategy 2 cleaning: same cleanup without the boilerplate pre-filter. -/
def cleanLinkText (raw : String) : Option String :=
  let text := cleanupCommitText (jsTrim raw)
  if text.length > 10 then some text else none

/-- Strategy 2: derive commit text from the elements near commit links. -/
def linkFallback (doc : CommitDoc) : List String :=
  doc.commitLinkTexts.filterMap cleanLinkText

/-- Strategy 3: page-wide text scan split into lines. -/
def pageTextCommits (bodyText : String) : List String :=
  let lines := ((jsSplitNL bodyText).map jsTrim).filter fun l => l.length > 0
  let potentialCommits := lines.filter fun line =>
    line.length > 10 && line.length < 200 &&
    !(jsIncludes line "files changed") && !(jsIncludes line "contributor") &&
    !(jsIncludes line "committed") && !(isPureDigits line) &&
    !(jsIncludes line "ago") && jsIncludes line " "
  potentialCommits.take 10

/-- The cascade (strategies 1-4) before the final cap. -/
def commitCascadeResult (doc : CommitDoc) : List String :=
  let commits := selectorCascade doc commitSelectors
  let commits := if commits.isEmpty then linkFallback doc else commits
  let commits := if commits.isEmpty then pageTextCommits doc.bodyText else commits
  if commits.isEmpty then
    ["cread and add functionalities for the extension", "updated testing steps"]
  else commits

/-- `extractCommitMessages()` (final content script). -/
def extractCommitMessages (doc : CommitDoc) : List String :=
  (commitCascadeResult doc).take 10

/-- DOM surface of the legacy `extractCommitMessages` variant:
`selectorTexts` as above, `allElementTexts` the `textContent` of every
element visited by the `querySelectorAll('*')` fallback. -/
structure LegacyCommitDoc where
  selectorTexts : String → List String
  allElementTexts : List String

/-- Selector list of the legacy variant. -/
def legacyCommitSelectors : List String :=
  [".commit-message a.message", ".commit-message .message",
   "[data-testid=\"commit-message\"]", ".js-commit-message",
   ".commit-title", ".commit-summary"]

/-- Legacy strategy 1: first selector whose trimmed non-empty texts are
non-empty wins. -/
def legacySelectorCascade (doc : LegacyCommitDoc) : List String → List String
  | [] => []
  | sel :: rest =>
    let elements := doc.selectorTexts sel
    if elements.length > 0 then
      let commits := (elements.map jsTrim).filter fun t => t.length > 0
      if commits.length > 0 then commits else legacySelectorCascade doc rest
    else legacySelectorCascade doc rest

/-- Legacy fallback: every element whose text contains `commit` and is
shorter than 200 characters contributes up to 10 lines whose trim is
non-empty (the untrimmed lines are pushed). -/
def legacyFallback (texts : List String) : List String :=
  texts.foldl (fun commits text =>
    if text != "" && jsIncludes text "commit" && text.length < 200 then
      commits ++ (((jsSplitNL text).filter fun l => (jsTrim l).length > 0).take 10)
    else commits) []

/-- The legacy `extractCommitMessages()`. -/
def legacyExtractCommitMessages (doc : LegacyCommitDoc) : List String :=
  let commits := legacySelectorCascade doc legacyCommitSelectors
  let commits := if commits.isEmpty then legacyFallback doc.allElementTexts else commits
  commits.take 20

/-- A document on which every query comes back empty. -/
def emptyCommitDoc : CommitDoc := ⟨fun _ => [], [], ""⟩

/-- A document whose first commit selector yields one 240-character text. -/
def longCommitDoc : CommitDoc :=
  ⟨fun sel => if sel == ".commit-message" then [String.mk (List.replicate 240 'a')] else [],
   [], ""⟩

/-- A document whose first commit selector yields a text in which whitespace
collapse re-creates the denylisted phrase `files changed`. -/
def denylistDoc : CommitDoc :=
  ⟨fun sel =>
     if sel == ".commit-message" then ["Improve files\nchanged handling logic"] else [],
   [], ""⟩

/-! ## Code-Change Classifier (`codePatterns` in `extractCodeChanges`)

Each JS regex is hand-compiled to a deterministic matcher over `List Char`.
A "position alternative" is `List Char → Option String`: try the alternative
at the head of the given suffix and return the info value
(`match[1] || match[2] || match[0]`).  `scanMatch` realises leftmost-match
semantics (scan positions left to right; at each, try alternatives in
order).  All character classes involved (`\w`, `\s`, literals, negated
classes) are disjoint from their successors in each pattern, so greedy
maximal-run matching coincides with the engine's backtracking, except where
noted (optional groups are tried branch-by-branch). -/

/-- The backquote character (used by the `api`, `styling`, `database`
patterns). -/
def backquote : Char := Char.ofNat 96

/-- The opening curly brace (used by the `method` pattern). -/
def openBrace : Char := Char.ofNat 123

/-- Match a literal at the head of the suffix, returning the rest. -/
def matchLit (lit : List Char) (cs : List Char) : Option (List Char) :=
  if startsWithL cs lit then some (cs.drop lit.length) else none

/-- Greedy maximal run of a class, at least one character. -/
def matchRun1 (cl : Char → Bool) (cs : List Char) : Option (List Char × List Char) :=
  let run := cs.takeWhile cl
  if run.isEmpty then none else some (run, cs.dropWhile cl)

/-- Greedy maximal (possibly empty) run of a class. -/
def matchRun0 (cl : Char → Bool) (cs : List Char) : List Char × List Char :=
  (cs.takeWhile cl, cs.dropWhile cl)

/-- Try alternatives in order at one position. -/
def tryAlts (alts : List (List Char → Option String)) (cs : List Char) : Option String :=
  match alts with
  | [] => none
  | a :: rest =>
    match a cs with
    | some r => some r
    | none => tryAlts rest cs

/-- Leftmost-match scan over all positions (including end of string). -/
def scanMatch (alts : List (List Char → Option String)) : List Char → Option String
  | [] => tryAlts alts []
  | c :: cs =>
    match tryAlts alts (c :: cs) with
    | some r => some r
    | none => scanMatch alts cs

/-- Case-sensitive literal alternation (`a|b|...`); info is the literal. -/
def litAlts (lits : List String) (cs : List Char) : Option String :=
  match lits with
  | [] => none
  | l :: rest => if startsWithL cs l.data then some l else litAlts rest cs

/-- Case-insensitive literal alternation; `lits` in lowercase; info is the
consumed input text in its original case. -/
def litAltsCI (lits : List String) (cs : List Char) : Option String :=
  match lits with
  | [] => none
  | l :: rest =>
    if startsWithL (cs.map Char.toLower) l.data then some ⟨cs.take l.length⟩
    else litAltsCI rest cs

/-- `kw\s+(\w+)`: keyword, whitespace, identifier capture. -/
def kwWordAfter (kw : String) (cs : List Char) : Option String :=
  match matchLit kw.data cs with
  | none => none
  | some rest =>
    match matchRun1 isWs rest with
    | none => none
    | some (_, rest2) =>
      match matchRun1 isWordChar rest2 with
      | none => none
      | some (w, _) => some ⟨w⟩

/-- Alternative 1 of the `function` pattern:
`(?:function|const|let|var)\s+(\w+)`. -/
def funAlt1 (cs : List Char) : Option String :=
  (kwWordAfter "function" cs) <|> (kwWordAfter "const" cs) <|>
    (kwWordAfter "let" cs) <|> (kwWordAfter "var" cs)

/-- Alternative 3 of the `function` pattern: `(\w+)\s*[:=]\s*(?:function|\()`;
its capture is group 3, so the JS info expression falls through to
`match[0]`, the whole matched text. -/
def funAlt3 (cs : List Char) : Option String :=
  match matchRun1 isWordChar cs with
  | none => none
  | some (w, rest) =>
    let p1 := matchRun0 isWs rest
    match p1.2 with
    | c :: rest2 =>
      if c = ':' || c = '=' then
        let p2 := matchRun0 isWs rest2
        if startsWithL p2.2 "function".data then
          some ⟨w ++ p1.1 ++ [c] ++ p2.1 ++ "function".data⟩
        else
          match p2.2 with
          | '(' :: _ => some ⟨w ++ p1.1 ++ [c] ++ p2.1 ++ ['(']⟩
          | _ => none
      else none
    | [] => none

/-- `/(?:function|const|let|var)\s+(\w+)|class\s+(\w+)|(\w+)\s*[:=]\s*(?:function|\()/`. -/
def matchFunctionPattern (s : String) : Option String :=
  scanMatch [funAlt1, kwWordAfter "class", funAlt3] s.data

/-- The suffix `from\s+['"]([^'"]+)['"]` of the import pattern. -/
def importTail (cs : List Char) : Option String :=
  match matchLit "from".data cs with
  | none => none
  | some rest =>
    match matchRun1 isWs rest with
    | none => none
    | some (_, rest2) =>
      match rest2 with
      | q :: rest3 =>
        if q = '\'' || q = '"' then
          match matchRun1 (fun c => !(c = '\'' || c = '"')) rest3 with
          | none => none
          | some (content, rest4) =>
            match rest4 with
            | q2 :: _ => if q2 = '\'' || q2 = '"' then some ⟨content⟩ else none
            | [] => none
        else none
      | [] => none

/-- Scan for the first position where `tl` matches, without the lazy `.*?`
crossing a newline. -/
def scanNoNL {α : Type} (tl : List Char → Option α) : List Char → Option α
  | [] => tl []
  | c :: cs =>
    match tl (c :: cs) with
    | some r => some r
    | none => if c = '\n' then none else scanNoNL tl cs

/-- Leftmost-match scan for a single position matcher. -/
def scanFor {α : Type} (alt : List Char → Option α) : List Char → Option α
  | [] => alt []
  | c :: cs =>
    match alt (c :: cs) with
    | some r => some r
    | none => scanFor alt cs

/-- `/import\s+.*?from\s+['"]([^'"]+)['"]/`: the greedy `\s+` followed by the
lazy `.*?` is equivalent to skipping the maximal whitespace run (at least
one character) and scanning forward, stopping at a newline. -/
def importAlt (cs : List Char) : Option String :=
  match matchLit "import".data cs with
  | none => none
  | some rest =>
    match matchRun1 isWs rest with
    | none => none
    | some (_, rest2) => scanNoNL importTail rest2

/-- `/import\s+.*?from\s+['"]([^'"]+)['"]/`. -/
def matchImportPattern (s : String) : Option String :=
  scanMatch [importAlt] s.data

/-- The `\s*(\w+)` finish of the export pattern. -/
def exportFinish (r : List Char) : Option String :=
  match matchRun1 isWordChar (r.dropWhile isWs) with
  | some (w, _) => some ⟨w⟩
  | none => none

/-- `(?:function|class|const|let|var)?\s*(\w+)`: try each keyword branch and
fall back to the empty branch (regex optional-group backtracking). -/
def exportAfterDefault (cs : List Char) : Option String :=
  (matchLit "function".data cs >>= exportFinish) <|>
    (matchLit "class".data cs >>= exportFinish) <|>
    (matchLit "const".data cs >>= exportFinish) <|>
    (matchLit "let".data cs >>= exportFinish) <|>
    (matchLit "var".data cs >>= exportFinish) <|>
    exportFinish cs

/-- `/export\s+(?:default\s+)?(?:function|class|const|let|var)?\s*(\w+)/`. -/
def exportAlt (cs : List Char) : Option String :=
  match matchLit "export".data cs with
  | none => none
  | some r =>
    match matchRun1 isWs r with
    | none => none
    | some (_, r2) =>
      (matchLit "default".data r2 >>= fun r3 =>
        matchRun1 isWs r3 >>= fun p => exportAfterDefault p.2) <|>
        exportAfterDefault r2

/-- `/export\s+(?:default\s+)?(?:function|class|const|let|var)?\s*(\w+)/`. -/
def matchExportPattern (s : String) : Option String :=
  scanMatch [exportAlt] s.data

/-- `<(\w+)[^>]*>` (first component alternative). -/
def componentAlt1 (cs : List Char) : Option String :=
  match cs with
  | '<' :: rest =>
    match matchRun1 isWordChar rest with
    | none => none
    | some (w, rest2) =>
      match (matchRun0 (fun c => !(c = '>')) rest2).2 with
      | '>' :: _ => some ⟨w⟩
      | _ => none
  | _ => none

/-- `React\.createElement\((\w+)` (second component alternative). -/
def componentAlt2 (cs : List Char) : Option String :=
  match matchLit "React.createElement(".data cs with
  | none => none
  | some rest =>
    match matchRun1 isWordChar rest with
    | some (w, _) => some ⟨w⟩
    | none => none

/-- `/<(\w+)[^>]*>|React\.createElement\((\w+)/`. -/
def matchComponentPattern (s : String) : Option String :=
  scanMatch [componentAlt1, componentAlt2] s.data

/-- One keyword branch of `(?:fetch|axios|api)\s*\(\s*['"`]([^'"`]+)['"`]`. -/
def apiAltWith (kw : String) (cs : List Char) : Option String :=
  match matchLit kw.data cs with
  | none => none
  | some r =>
    match r.dropWhile isWs with
    | '(' :: r2 =>
      match r2.dropWhile isWs with
      | q :: r4 =>
        if q = '\'' || q = '"' || q = backquote then
          match matchRun1 (fun c => !(c = '\'' || c = '"' || c = backquote)) r4 with
          | some (content, r5) =>
            match r5 with
            | q2 :: _ =>
              if q2 = '\'' || q2 = '"' || q2 = backquote then some ⟨content⟩ else none
            | [] => none
          | none => none
        else none
      | [] => none
    | _ => none

/-- `/(?:fetch|axios|api)\s*\(\s*['"`]([^'"`]+)['"`]/`. -/
def matchApiPattern (s : String) : Option String :=
  scanMatch [fun cs =>
    (apiAltWith "fetch" cs) <|> (apiAltWith "axios" cs) <|> (apiAltWith "api" cs)] s.data

/-- `/useState\(|setState\(|this\.state/`. -/
def matchStatePattern (s : String) : Option String :=
  scanMatch [litAlts ["useState(", "setState(", "this.state"]] s.data

/-- One branch of the `props` pattern: prefix then `(\w+)` capture. -/
def propsAltWith (pre : String) (cs : List Char) : Option String :=
  match matchLit pre.data cs with
  | none => none
  | some r =>
    match matchRun1 isWordChar r with
    | some (w, _) => some ⟨w⟩
    | none => none

/-- `/props\.(\w+)|this\.props\.(\w+)/`. -/
def matchPropsPattern (s : String) : Option String :=
  scanMatch [fun cs => (propsAltWith "props." cs) <|> (propsAltWith "this.props." cs)] s.data

/-- `/(\w+)\s*\([^)]*\)\s*{/`. -/
def methodAlt (cs : List Char) : Option String :=
  match matchRun1 isWordChar cs with
  | none => none
  | some (w, r) =>
    match r.dropWhile isWs with
    | '(' :: r2 =>
      match r2.dropWhile (fun c => !(c = ')')) with
      | ')' :: r3 =>
        match r3.dropWhile isWs with
        | b :: _ => if b = openBrace then some ⟨w⟩ else none
        | [] => none
      | _ => none
    | _ => none

/-- `/(\w+)\s*\([^)]*\)\s*{/`. -/
def matchMethodPattern (s : String) : Option String :=
  scanMatch [methodAlt] s.data

/-- `/useContext\(|createContext\(|useReducer\(|useState\(|zustand|redux|context/i`. -/
def matchStateManagementPattern (s : String) : Option String :=
  scanMatch [litAltsCI ["usecontext(", "createcontext(", "usereducer(", "usestate(",
    "zustand", "redux", "context"]] s.data

/-- `use[A-Z]\w*\(` (first hooks alternative); info is the whole match. -/
def hooksAlt1 (cs : List Char) : Option String :=
  match matchLit "use".data cs with
  | none => none
  | some (c :: r) =>
    if c.isUpper then
      let p := matchRun0 isWordChar r
      match p.2 with
      | '(' :: _ => some ⟨"use".data ++ [c] ++ p.1 ++ ['(']⟩
      | _ => none
    else none
  | some [] => none

/-- `/use[A-Z]\w*\(|useEffect\(|useMemo\(|useCallback\(/`. -/
def matchHooksPattern (s : String) : Option String :=
  scanMatch [hooksAlt1, litAlts ["useEffect(", "useMemo(", "useCallback("]] s.data

/-- `Route\s+` (third routing alternative); info is the whole match. -/
def routeWsAlt (cs : List Char) : Option String :=
  match matchLit "Route".data cs with
  | none => none
  | some r =>
    match matchRun1 isWs r with
    | some (sp, _) => some ⟨"Route".data ++ sp⟩
    | none => none

/-- `/useRouter\(|useNavigate\(|Route\s+|router\.|navigate\(/`. -/
def matchRoutingPattern (s : String) : Option String :=
  scanMatch [litAlts ["useRouter(", "useNavigate("], routeWsAlt,
    litAlts ["router.", "navigate("]] s.data

/-- `/styled\.|css`|className=|\.module\.|tailwind|@apply/`. -/
def matchStylingPattern (s : String) : Option String :=
  scanMatch [litAlts ["styled.", "css`", "className=", ".module.", "tailwind", "@apply"]] s.data

/-- `/prisma\.|mongoose\.|sequelize\.|sql`|query\(/`. -/
def matchDatabasePattern (s : String) : Option String :=
  scanMatch [litAlts ["prisma.", "mongoose.", "sequelize.", "sql`", "query("]] s.data

/-- `/auth\.|login\(|logout\(|signin\(|authenticate\(/`. -/
def matchAuthPattern (s : String) : Option String :=
  scanMatch [litAlts ["auth.", "login(", "logout(", "signin(", "authenticate("]] s.data

/-- `/yup\.|joi\.|zod\.|validate\(|schema\./`. -/
def matchValidationPattern (s : String) : Option String :=
  scanMatch [litAlts ["yup.", "joi.", "zod.", "validate(", "schema."]] s.data

/-- `/test\(|it\(|describe\(|expect\(|jest\.|vitest\./`. -/
def matchTestingPattern (s : String) : Option String :=
  scanMatch [litAlts ["test(", "it(", "describe(", "expect(", "jest.", "vitest."]] s.data

/-- `/process\.env\.|config\.|\.env|environment/`. -/
def matchConfigPattern (s : String) : Option String :=
  scanMatch [litAlts ["process.env.", "config.", ".env", "environment"]] s.data

/-- `/axios\.|fetch\(|api\.|endpoint|http\./`. -/
def matchApiIntegrationPattern (s : String) : Option String :=
  scanMatch [litAlts ["axios.", "fetch(", "api.", "endpoint", "http."]] s.data

/-- `on[A-Z]` (last event-handling alternative); info is the whole match. -/
def onUpperAlt (cs : List Char) : Option String :=
  match matchLit "on".data cs with
  | none => none
  | some (c :: _) => if c.isUpper then some ⟨['o', 'n', c]⟩ else none
  | some [] => none

/-- `/onClick|onChange|onSubmit|addEventListener|on[A-Z]/`. -/
def matchEventHandlingPattern (s : String) : Option String :=
  scanMatch [litAlts ["onClick", "onChange", "onSubmit", "addEventListener"], onUpperAlt] s.data

/-- `/useQuery\(|useMutation\(|SWR|react-query|apollo/`. -/
def matchDataFetchingPattern (s : String) : Option String :=
  scanMatch [litAlts ["useQuery(", "useMutation(", "SWR", "react-query", "apollo"]] s.data

/-- `/useForm\(|formik|react-hook-form|onSubmit/`. -/
def matchFormHandlingPattern (s : String) : Option String :=
  scanMatch [litAlts ["useForm(", "formik", "react-hook-form", "onSubmit"]] s.data

/-- The `codePatterns` table in declaration order (the order
`Object.entries` iterates). -/
def codePatterns : List (String × (String → Option String)) :=
  [("function", matchFunctionPattern),
   ("import", matchImportPattern),
   ("export", matchExportPattern),
   ("component", matchComponentPattern),
   ("api", matchApiPattern),
   ("state", matchStatePattern),
   ("props", matchPropsPattern),
   ("method", matchMethodPattern),
   ("stateManagement", matchStateManagementPattern),
   ("hooks", matchHooksPattern),
   ("routing", matchRoutingPattern),
   ("styling", matchStylingPattern),
   ("database", matchDatabasePattern),
   ("auth", matchAuthPattern),
   ("validation", matchValidationPattern),
   ("testing", matchTestingPattern),
   ("config", matchConfigPattern),
   ("apiIntegration", matchApiIntegrationPattern),
   ("eventHandling", matchEventHandlingPattern),
   ("dataFetching", matchDataFetchingPattern),
   ("formHandling", matchFormHandlingPattern)]

/-- First pattern of the table that matches the line. -/
def firstPattern (s : String) :
    List (String × (String → Option String)) → Option (String × String)
  | [] => none
  | (name, m) :: rest =>
    match m s with
    | some info => some (name, info)
    | none => firstPattern s rest

/-- The nested `functionalityContext` assignment inside the pattern loop. -/
def functionalityContextFor (ty : String) (cleanText : String) : String :=
  if ty == "stateManagement" then
    if jsIncludes cleanText "zustand" then "Zustand state management"
    else if jsIncludes cleanText "redux" then "Redux state management"
    else if jsIncludes cleanText "context" then "React Context API"
    else if jsIncludes cleanText "useState" then "React local state"
    else ""
  else if ty == "auth" then "Authentication system"
  else if ty == "apiIntegration" then "API integration"
  else if ty == "formHandling" then "Form handling"
  else if ty == "routing" then "Navigation/routing"
  else if ty == "dataFetching" then "Data fetching"
  else ""

/-- The classification of one cleaned diff line: first matching pattern in
table order wins; unmatched lines are `("general", "", "")`.  Returns
`(codeType, extractedInfo, functionalityContext)`. -/
def classifyLine (cleanText : String) : String × String × String :=
  match firstPattern cleanText codePatterns with
  | some (ty, info) => (ty, info, functionalityContextFor ty cleanText)
  | none => ("general", "", "")

/-! ## Hunk summaries: the shadowed and the effective `generateChangeSummary`

The content script declares `function generateChangeSummary(added, removed)`
(hunk-based) and, later in the same script,
`function generateChangeSummary(files)` (file-based).  JS function hoisting
makes the **second** declaration the binding in effect for the whole script,
so the call `generateChangeSummary(addedChunk, removedChunk)` inside
`extractCodeChanges` actually runs the files-based function on chunk
records. -/

/-- The closing curly brace. -/
def closeBrace : Char := Char.ofNat 125

/-- The first (shadowed, dead-at-runtime) declaration
`generateChangeSummary(added, removed)`: the hunk-level summary cascade the
spec documents.  Rules with possible fall-through in the JS control flow
(state management, imports) are `Option`-valued and chained. -/
def generateChangeSummaryChunks (added removed : List LineRec) : String :=
  let addedTypes := jsSetDedup (added.map (·.type))
  let removedTypes := jsSetDedup (removed.map (·.type))
  let addedContexts := jsSetDedup ((added.map (·.context)).filter (· != ""))
  let removedContexts := jsSetDedup ((removed.map (·.context)).filter (· != ""))
  let stateRule : Option String :=
    if addedContexts.any (fun c => jsIncludes c "state") ||
        removedContexts.any (fun c => jsIncludes c "state") then
      let addedStateTypes := addedContexts.filter (fun c => jsIncludes c "state")
      let removedStateTypes := removedContexts.filter (fun c => jsIncludes c "state")
      if addedStateTypes.length > 0 && removedStateTypes.length > 0 then
        some ("State management: Changed from " ++
          jsJoin ", " removedStateTypes ++ " to " ++
          jsJoin ", " addedStateTypes)
      else if addedStateTypes.length > 0 then
        some ("Added " ++ jsJoin ", " addedStateTypes ++ " implementation")
      else if removedStateTypes.length > 0 then
        some ("Removed " ++ jsJoin ", " removedStateTypes ++ " implementation")
      else none
    else none
  match stateRule with
  | some s => s
  | none =>
    if addedContexts.contains "Authentication system" ||
        removedContexts.contains "Authentication system" then
      "Updated authentication system implementation"
    else if addedContexts.contains "API integration" ||
        removedContexts.contains "API integration" then
      let apiMethods := (added.filter (fun a => a.type == "apiIntegration")).map (·.info)
      if apiMethods.length > 0 then
        "API integration: Updated endpoints (" ++ jsJoin ", " apiMethods ++ ")"
      else "Updated API integration logic"
    else if addedContexts.contains "Navigation/routing" ||
        removedContexts.contains "Navigation/routing" then
      "Updated navigation and routing implementation"
    else if addedContexts.contains "Form handling" ||
        removedContexts.contains "Form handling" then
      "Updated form handling and validation logic"
    else if addedContexts.contains "Data fetching" ||
        removedContexts.contains "Data fetching" then
      "Updated data fetching and caching logic"
    else if addedTypes.contains "function" || removedTypes.contains "function" then
      let addedFunctions := (added.filter (fun a => a.type == "function")).map (·.info)
      let removedFunctions := (removed.filter (fun r => r.type == "function")).map (·.info)
      if addedFunctions.length > 0 && removedFunctions.length == 0 then
        "Added new functions: " ++ jsJoin ", " addedFunctions
      else if removedFunctions.length > 0 && addedFunctions.length == 0 then
        "Removed functions: " ++ jsJoin ", " removedFunctions
      else if addedFunctions.length > 0 && removedFunctions.length > 0 then
        "Refactored functions: replaced " ++ jsJoin ", " removedFunctions ++
          " with " ++ jsJoin ", " addedFunctions
      else "Modified function implementations"
    else
      let importRule : Option String :=
        if addedTypes.contains "import" || removedTypes.contains "import" then
          let addedImports := (added.filter (fun a => a.type == "import")).map (·.info)
          let removedImports := (removed.filter (fun r => r.type == "import")).map (·.info)
          if addedImports.length > 0 && removedImports.length > 0 then
            some ("Dependencies: Replaced " ++ jsJoin ", " removedImports ++
              " with " ++ jsJoin ", " addedImports)
          else if addedImports.length > 0 then
            some ("Added new dependencies: " ++ jsJoin ", " addedImports)
          else if removedImports.length > 0 then
            some ("Removed dependencies: " ++ jsJoin ", " removedImports)
          else none
        else none
      match importRule with
      | some s => s
      | none =>
        if addedTypes.contains "component" then
          let components := (added.filter (fun a => a.type == "component")).map (·.info)
          "Updated React components: " ++ jsJoin ", " components
        else if addedTypes.contains "config" || removedTypes.contains "config" then
          "Updated configuration and environment settings"
        else if addedTypes.contains "styling" then
          "Updated styling and UI components"
        else if addedTypes.contains "testing" then
          "Added/updated test cases and testing logic"
        else if addedContexts.length > 0 then
          "Updated " ++ jsToLower (jsJoin ", " addedContexts) ++ " implementation"
        else if added.length > removed.length then
          "Added " ++ toString added.length ++ " lines of new functionality"
        else if removed.length > added.length then
          "Removed " ++ toString removed.length ++ " lines of code and refactored implementation"
        else
          "Refactored " ++ toString (max added.length removed.length) ++ " lines of code"

/-- The call `generateChangeSummary(addedChunk, removedChunk)` inside
`extractCodeChanges` **as it actually resolves**: to the later files-based
declaration.  Chunk records carry no `filename`, so the first loop iteration
evaluates `undefined.split('.')` and throws; with an empty array the loop
body never runs and the empty summary array is returned.  The second
argument is ignored by the effective function. -/
def hoistedChunkSummary (added _removed : List LineRec) : Except String (List String) :=
  match added with
  | [] => Except.ok []
  | _ :: _ => Except.error "TypeError: Cannot read properties of undefined (reading 'split')"

/-! ## Code change extraction (`extractCodeChanges` /
`extractSimpleCodeChanges`) -/

/-- A diff line element inside a diff container. -/
structure DiffLineEl where
  textContent : String
  classes : List String
  dataLineType : Option String
deriving DecidableEq, Repr

/-- The diff container
(`closest('.file, .js-file')?.querySelector('.js-file-content, .data')`).
`diffLinesBySel sel` models `querySelectorAll(sel)`;
`simpleAddedTexts` / `simpleRemovedTexts` are the element texts the fallback
`extractSimpleCodeChanges` queries. -/
structure DiffContainerEl where
  diffLinesBySel : String → List DiffLineEl
  simpleAddedTexts : List String
  simpleRemovedTexts : List String

/-- The ordered diff-line selector list of `extractCodeChanges`. -/
def diffLineSelectors : List String :=
  [".blob-code-addition, .blob-code-deletion", ".js-file-line-container",
   "tr[data-line-type]", ".highlight .line"]

/-- First selector with a non-empty element list (else empty). -/
def selectDiffLines (dc : DiffContainerEl) : List String → List DiffLineEl
  | [] => []
  | sel :: rest =>
    let lines := dc.diffLinesBySel sel
    if lines.length > 0 then lines else selectDiffLines dc rest

/-- `lineText.replace(/^\s*[\+\-\s]*\d+\s*/, '')`: anchored strip of leading
whitespace/sign runs followed by a line number; unchanged when no digits
follow (classes are disjoint from `\d`, so maximal runs are exact). -/
def stripDiffMarker (cs : List Char) : List Char :=
  let r1 := cs.dropWhile isWs
  let r2 := r1.dropWhile (fun c => c = '+' || c = '-' || isWs c)
  match matchRun1 Char.isDigit r2 with
  | some (_, r3) => r3.dropWhile isWs
  | none => cs

/-- The `isAddition` disjunction of structural signals. -/
def isAdditionLine (l : DiffLineEl) : Bool :=
  l.classes.contains "blob-code-addition" || l.classes.contains "js-addition" ||
    l.dataLineType == some "add" || jsStartsWith l.textContent "+"

/-- The `isDeletion` disjunction of structural signals. -/
def isDeletionLine (l : DiffLineEl) : Bool :=
  l.classes.contains "blob-code-deletion" || l.classes.contains "js-deletion" ||
    l.dataLineType == some "remove" || jsStartsWith l.textContent "-"

/-- The `/^\s*[{}()[\];,]\s*$/` test: one punctuation character surrounded
only by whitespace. -/
def isPunctOnly (s : String) : Bool :=
  match s.data.dropWhile isWs with
  | c :: rest =>
    (c = openBrace || c = closeBrace || c = '(' || c = ')' || c = '[' || c = ']' ||
      c = ';' || c = ',') && (rest.dropWhile isWs).isEmpty
  | [] => false

/-- `trim().replace(/^\+\s*/, '')` (and the `-` variant): anchored strip of
one leading sign plus whitespace. -/
def stripLeadSign (sign : Char) (s : String) : String :=
  match s.data with
  | c :: rest => if c = sign then ⟨rest.dropWhile isWs⟩ else s
  | [] => s

/-- `extractSimpleCodeChanges(diffContainer)`: the fallback extraction. -/
def extractSimpleCodeChanges (dc : DiffContainerEl) : List ChangeRec :=
  let added := (dc.simpleAddedTexts.take 10).filterMap fun t =>
    let content := stripLeadSign '+' (jsTrim t)
    if content != "" && content.length > 10 && !(isPunctOnly content) then
      some (ChangeRec.simpleAddition content)
    else none
  let removed := (dc.simpleRemovedTexts.take 10).filterMap fun t =>
    let content := stripLeadSign '-' (jsTrim t)
    if content != "" && content.length > 10 && !(isPunctOnly content) then
      some (ChangeRec.simpleDeletion content)
    else none
  (added ++ removed).take 10

/-- Loop state of the diff-line `forEach` in `extractCodeChanges`. -/
structure ChunkState where
  addedChunk : List LineRec
  removedChunk : List LineRec
  contextLines : List LineRec
  changes : List ChangeRec
deriving DecidableEq, Repr

/-- One iteration of the diff-line loop.  The `Except` propagates the
TypeError thrown by the hoisting-resolved summary call. -/
def processDiffLine (total : Nat) (st : ChunkState) (index : Nat) (l : DiffLineEl) :
    Except String ChunkState :=
  let lineText := l.textContent
  let cleanText := jsTrim ⟨stripDiffMarker lineText.data⟩
  if cleanText.length < 3 then Except.ok st
  else
    let isAddition := isAdditionLine l
    let isDeletion := isDeletionLine l
    let isContext := !isAddition && !isDeletion
    let cls := classifyLine cleanText
    let r : LineRec := ⟨cleanText, cls.1, cls.2.1, cls.2.2, index⟩
    let st :=
      if isAddition then { st with addedChunk := st.addedChunk ++ [r] }
      else if isDeletion then { st with removedChunk := st.removedChunk ++ [r] }
      else if isContext && cleanText.length > 5 then
        { st with contextLines := st.contextLines ++ [r] }
      else st
    if (isContext || index == total - 1) &&
        (st.addedChunk.length > 0 || st.removedChunk.length > 0) then
      match hoistedChunkSummary st.addedChunk st.removedChunk with
      | Except.error e => Except.error e
      | Except.ok summary =>
        Except.ok { st with
          changes := st.changes ++
            [ChangeRec.modification (st.contextLines.drop (st.contextLines.length - 2))
              st.addedChunk st.removedChunk summary],
          addedChunk := [], removedChunk := [] }
    else Except.ok st

/-- `extractCodeChanges(diffContainer)`: the loop in a `try` whose `catch`
falls back to `extractSimpleCodeChanges`. -/
def extractCodeChanges (dc : DiffContainerEl) : List ChangeRec :=
  let diffLines := selectDiffLines dc diffLineSelectors
  let result := diffLines.enum.foldlM
    (fun st p => processDiffLine diffLines.length st p.1 p.2) (ChunkState.mk [] [] [] [])
  match result with
  | Except.ok st => st.changes.take 15
  | Except.error _ => extractSimpleCodeChanges dc

/-! ## File change extraction (`extractFileChanges` /
`extractSingleFileChange`) -/

/-- A stats element: text, class attribute, parent text
(`parentElement?.textContent || ''`). -/
structure StatEl where
  text : String
  className : String
  parentText : String
deriving DecidableEq, Repr

/-- A file header element and the query surfaces `extractSingleFileChange`
reads from it.  `filenameBySel sel` is `(el.textContent || el.title || '')`
of the first element matching `sel` (`none` if no match); `linkTexts` the
texts of the `a` descendants; `headerText` the full text;
`diffStatsBySel sel` the text of the first matching diff-stats element;
`lineCountContainer` the (added, removed) line-element counts when the
counting container resolves; `changesContainer` the container passed to
`extractCodeChanges` when it resolves. -/
structure FileHeaderEl where
  filenameBySel : String → Option String
  linkTexts : List String
  headerText : String
  diffStatsBySel : String → Option String
  lineCountContainer : Option (Nat × Nat)
  changesContainer : Option DiffContainerEl

/-- The page surfaces `extractFileChanges` reads. -/
structure FileChangesDoc where
  statElemsBySel : String → List StatEl
  summaryTextBySel : String → Option String
  fileHeadersBySel : String → List FileHeaderEl

/-- `/\+(\d+)/`: leftmost `+` followed by digits; the captured value. -/
def matchPlusDigits (s : String) : Option Nat :=
  (scanFor (fun cs =>
    match cs with
    | '+' :: rest => (matchRun1 Char.isDigit rest).map (·.1)
    | _ => none) s.data).map parseDigits

/-- `/−(\d+)|-(\d+)/` (minus sign U+2212 or hyphen):
`match[1] || match[2]`. -/
def matchMinusDigits (s : String) : Option Nat :=
  (scanFor (fun cs =>
    match cs with
    | c :: rest =>
      if c = '−' || c = '-' then (matchRun1 Char.isDigit rest).map (·.1) else none
    | [] => none) s.data).map parseDigits

/-- `\+(\d+)\s*X(\d+)` for a given minus character (patterns 1 and 2 of the
per-file stats list). -/
def plusMinusPairAlt (minusChar : Char) (cs : List Char) : Option (Nat × Nat) :=
  match cs with
  | '+' :: rest =>
    match matchRun1 Char.isDigit rest with
    | none => none
    | some (d1, r1) =>
      match r1.dropWhile isWs with
      | m :: r2 =>
        if m = minusChar then
          match matchRun1 Char.isDigit r2 with
          | some (d2, _) => some (parseDigits d1, parseDigits d2)
          | none => none
        else none
      | [] => none
  | _ => none

/-- `(\d+)\s*lit` with a case-insensitive literal; value and rest. -/
def digitsThenCI (lit : String) (cs : List Char) : Option (Nat × List Char) :=
  match matchRun1 Char.isDigit cs with
  | none => none
  | some (d, r) =>
    let r1 := r.dropWhile isWs
    if startsWithL (r1.map Char.toLower) lit.data then
      some (parseDigits d, r1.drop lit.length)
    else none

/-- `/(\d+)\s*addition.*?(\d+)\s*deletion/i` (pattern 3). -/
def additionDeletionAlt (cs : List Char) : Option (Nat × Nat) :=
  match digitsThenCI "addition" cs with
  | none => none
  | some (a, rest) =>
    (scanNoNL (fun r => (digitsThenCI "deletion" r).map (·.1)) rest).map (fun b => (a, b))

/-- `(\d+)\s*c` for a literal character; value and rest. -/
def digitsThenChar (ch : Char) (cs : List Char) : Option (Nat × List Char) :=
  match matchRun1 Char.isDigit cs with
  | none => none
  | some (d, r) =>
    match r.dropWhile isWs with
    | c :: rest => if c = ch then some (parseDigits d, rest) else none
    | [] => none

/-- `(\d+)\s*\+.*?(\d+)\s*` followed by a hyphen (pattern 4). -/
def plusThenMinusAlt (cs : List Char) : Option (Nat × Nat) :=
  match digitsThenChar '+' cs with
  | none => none
  | some (a, rest) =>
    (scanNoNL (fun r => (digitsThenChar '-' r).map (·.1)) rest).map (fun b => (a, b))

/-- The four per-file stats patterns, tried in order. -/
def fileStatsPatterns (statsText : String) : Option (Nat × Nat) :=
  (scanFor (plusMinusPairAlt '−') statsText.data) <|>
    (scanFor (plusMinusPairAlt '-') statsText.data) <|>
    (scanFor additionDeletionAlt statsText.data) <|>
    (scanFor plusThenMinusAlt statsText.data)

/-- The ordered diff-stats selector list of `extractSingleFileChange`. -/
def diffStatsSelectors : List String :=
  [".diffstat", ".file-diff-stats",
   ".file-header .text-green, .file-header .text-red",
   ".file-header .color-fg-success, .file-header .color-fg-danger"]

/-- Stats extracted from one diff-stats element's text: the four patterns in
order, then (when both are still zero) the individual `+`/`−` matches. -/
def diffStatsOfText (statsText : String) : Int × Int :=
  let pair : Int × Int :=
    match fileStatsPatterns statsText with
    | some (x, y) => ((x : Int), (y : Int))
    | none => (0, 0)
  if pair.1 == 0 && pair.2 == 0 then
    ((match matchPlusDigits statsText with
      | some n => (n : Int)
      | none => pair.1),
     (match matchMinusDigits statsText with
      | some n => (n : Int)
      | none => pair.2))
  else pair

/-- The diff-stats selector loop, breaking once something positive was
found. -/
def fileStatsFromSelectors (header : FileHeaderEl) : List String → Int × Int
  | [] => (0, 0)
  | sel :: rest =>
    match header.diffStatsBySel sel with
    | none => fileStatsFromSelectors header rest
    | some statsText =>
      let pair := diffStatsOfText statsText
      if pair.1 > 0 || pair.2 > 0 then pair else fileStatsFromSelectors header rest

/-- Stats for one file: selector loop, then the diff-line counting fallback. -/
def singleFileStats (header : FileHeaderEl) : Int × Int :=
  let p := fileStatsFromSelectors header diffStatsSelectors
  if p.1 == 0 && p.2 == 0 then
    match header.lineCountContainer with
    | some (na, nd) => ((na : Int), (nd : Int))
    | none => p
  else p

/-- The ordered filename selector list. -/
def filenameSelectors : List String :=
  [".file-info a", ".file-header-text", ".file-path", "[data-testid=\"file-name\"]",
   "a[title]", ".file-header .Link--primary", ".file-header a[href*=\"/blob/\"]"]

/-- The filename selector loop (first non-empty trimmed text). -/
def filenameFromSelectors (header : FileHeaderEl) : List String → String
  | [] => ""
  | sel :: rest =>
    match header.filenameBySel sel with
    | none => filenameFromSelectors header rest
    | some raw =>
      let fn := jsTrim raw
      if fn != "" then fn else filenameFromSelectors header rest

/-- The link fallback: first link text containing a dot, not containing
`commit`, shorter than 100 characters. -/
def filenameFromLinks : List String → String
  | [] => ""
  | t :: rest =>
    let text := jsTrim t
    if text != "" && jsIncludes text "." && !(jsIncludes text "commit") &&
        text.length < 100 then text
    else filenameFromLinks rest

/-- Status inference from the header text. -/
def statusFromHeader (headerText : String) : FileStatus :=
  let lower := jsToLower headerText
  if jsIncludes lower "added" || jsIncludes lower "new file" then FileStatus.added
  else if jsIncludes lower "deleted" || jsIncludes lower "removed" then FileStatus.deleted
  else if jsIncludes lower "renamed" then FileStatus.renamed
  else FileStatus.modified

/-- The filename resolution: selector loop, then the link fallback when it
came back empty. -/
def resolvedFilename (header : FileHeaderEl) : String :=
  let filename := filenameFromSelectors header filenameSelectors
  if filename == "" then filenameFromLinks header.linkTexts else filename

/-- `extractSingleFileChange(fileHeader)`: `none` models the `null` returned
for a file without a resolvable filename. -/
def extractSingleFileChange (header : FileHeaderEl) : Option FileRec :=
  let filename := resolvedFilename header
  let status := statusFromHeader header.headerText
  let p := singleFileStats header
  let changes :=
    match header.changesContainer with
    | some dc => extractCodeChanges dc
    | none => []
  if filename != "" then some (FileRec.mk filename status p.1 p.2 changes) else none

/-- The ordered overall-stats selector list of `extractFileChanges`. -/
def statsSelectors : List String :=
  [".pr-toolbar .diffstat-summary strong",
   ".pr-toolbar .color-fg-success, .pr-toolbar .color-fg-danger",
   ".gh-header-meta .color-fg-success, .gh-header-meta .color-fg-danger",
   "[data-testid=\"file-changes\"] .color-fg-success, [data-testid=\"file-changes\"] .color-fg-danger",
   ".js-details-target .text-green, .js-details-target .text-red",
   ".diffstat .text-green, .diffstat .text-red",
   ".color-fg-success, .color-fg-danger"]

/-- `parseInt(text.replace(/[^\d]/g, ''))`: `none` is the NaN case. -/
def parseIntDigitsOnly (s : String) : Option Nat :=
  let ds := s.data.filter Char.isDigit
  if ds.isEmpty then none else some (parseDigits ds)

/-- One iteration of the stats `forEach`; the state is
(additions, deletions, foundAdditions, foundDeletions). -/
def statsElemStep (st : Int × Int × Bool × Bool) (el : StatEl) : Int × Int × Bool × Bool :=
  let text := jsTrim el.text
  match parseIntDigitsOnly text with
  | none => st
  | some n =>
    if n > 0 then
      if !st.2.2.1 && (jsIncludes el.className "success" || jsIncludes el.className "green" ||
          jsIncludes el.parentText "+" || jsIncludes text "+") then
        ((n : Int), st.2.1, true, st.2.2.2)
      else if !st.2.2.2 && (jsIncludes el.className "danger" || jsIncludes el.className "red" ||
          jsIncludes el.parentText "-" || jsIncludes text "−") then
        (st.1, (n : Int), st.2.2.1, true)
      else st
    else st

/-- The overall stats selector loop (needs at least two elements; breaks
when additions or deletions were found). -/
def statsFromSelectors (doc : FileChangesDoc) : List String → Int × Int
  | [] => (0, 0)
  | sel :: rest =>
    let statsElements := doc.statElemsBySel sel
    if statsElements.length ≥ 2 then
      let st := statsElements.foldl statsElemStep (0, 0, false, false)
      if st.2.2.1 || st.2.2.2 then (st.1, st.2.1) else statsFromSelectors doc rest
    else statsFromSelectors doc rest

/-- The ordered summary selector list of the text-based stats fallback. -/
def summarySelectors : List String :=
  [".pr-toolbar", ".gh-header-meta", ".js-details-target", ".diffstat-summary"]

/-- The text-based stats fallback loop. -/
def statsFromSummaryText (doc : FileChangesDoc) : List String → Int × Int
  | [] => (0, 0)
  | sel :: rest =>
    match doc.summaryTextBySel sel with
    | none => statsFromSummaryText doc rest
    | some summaryText =>
      match matchPlusDigits summaryText, matchMinusDigits summaryText with
      | none, none => statsFromSummaryText doc rest
      | aM, dM =>
        ((match aM with | some n => (n : Int) | none => 0),
         (match dM with | some n => (n : Int) | none => 0))

/-- The ordered file selector list. -/
def fileSelectors : List String :=
  [".file-header", ".file .file-header", "[data-testid=\"file-change\"] .file-header",
   ".js-file .file-header", ".file-diff-split .file-header"]

/-- The file selector loop. -/
def filesFromSelectors (doc : FileChangesDoc) : List String → List FileRec
  | [] => []
  | sel :: rest =>
    let fileHeaders := doc.fileHeadersBySel sel
    if fileHeaders.length > 0 then
      let files := fileHeaders.filterMap extractSingleFileChange
      if files.length > 0 then files else filesFromSelectors doc rest
    else filesFromSelectors doc rest

/-- Bump a key's count in an insertion-ordered association list (the
`fileTypes[ext] = (fileTypes[ext] || 0) + 1` object update). -/
def bumpCount : List (String × Nat) → String → List (String × Nat)
  | [], ext => [(ext, 1)]
  | (k, v) :: rest, ext =>
    if k == ext then (k, v + 1) :: rest else (k, v) :: bumpCount rest ext

/-- Stable insertion for the descending-by-count sort
(`.sort(([,a],[,b]) => b - a)`; `Array.prototype.sort` is stable). -/
def insertByCountDesc (x : String × Nat) : List (String × Nat) → List (String × Nat)
  | [] => [x]
  | y :: rest => if y.2 ≤ x.2 then x :: y :: rest else y :: insertByCountDesc x rest

/-- Stable sort, descending by count. -/
def sortByCountDesc (l : List (String × Nat)) : List (String × Nat) :=
  l.foldr insertByCountDesc []

/-- The **effective** `generateChangeSummary` (the second, files-based
declaration): high-level per-file summary strings. -/
def generateChangeSummary (files : List FileRec) : List String :=
  let fileTypes := files.foldl (fun fts file =>
    let ext := jsToLower ((jsSplitChar '.' file.filename).getLastD "")
    if ext != "" then bumpCount fts ext else fts) []
  let added := (files.filter (fun f => f.status == FileStatus.added)).map (·.filename)
  let modified := (files.filter (fun f => f.status == FileStatus.modified)).map (·.filename)
  let deleted := (files.filter (fun f => f.status == FileStatus.deleted)).map (·.filename)
  let summary : List String := []
  let summary := summary ++
    (if added.length > 0 then
      ["Added " ++ toString added.length ++ " new file(s): " ++
        jsJoin ", " (added.take 3)]
    else [])
  let summary := summary ++
    (if modified.length > 0 then
      ["Modified " ++ toString modified.length ++ " file(s): " ++
        jsJoin ", " (modified.take 3)]
    else [])
  let summary := summary ++
    (if deleted.length > 0 then
      ["Deleted " ++ toString deleted.length ++ " file(s): " ++
        jsJoin ", " (deleted.take 3)]
    else [])
  let topFileTypes := jsJoin ", " (((sortByCountDesc fileTypes).take 3).map
    (fun p => toString p.2 ++ " " ++ p.1 ++ " file(s)"))
  summary ++ (if topFileTypes != "" then ["Primarily affected: " ++ topFileTypes] else [])

/-- The overall stats before the per-file summation: the element-based loop,
then (when both are still zero) the text-based fallback. -/
def overallStatsPre (doc : FileChangesDoc) : Int × Int :=
  let p := statsFromSelectors doc statsSelectors
  if p.1 == 0 && p.2 == 0 then statsFromSummaryText doc summarySelectors else p

/-- `extractFileChanges()`. -/
def extractFileChanges (doc : FileChangesDoc) : FileChanges :=
  let p := overallStatsPre doc
  let files := filesFromSelectors doc fileSelectors
  let filesChanged : Int := files.length
  let p :=
    if p.1 == 0 && p.2 == 0 && files.length > 0 then
      (files.foldl (fun s f => s + f.additions) 0, files.foldl (fun s f => s + f.deletions) 0)
    else p
  FileChanges.mk files (Stats.mk filesChanged p.1 p.2) (generateChangeSummary files)

/-- A file-changes document on which every query comes back empty except one
file header carrying the filename `app.js`. -/
def oneFileDoc : FileChangesDoc :=
  ⟨fun _ => [], fun _ => none,
   fun sel =>
     if sel == ".file-header" then
       [⟨fun s => if s == ".file-info a" then some "app.js" else none,
         [], "2 changed files", fun _ => none, none, none⟩]
     else []⟩

/-- A diff container holding a single added `general`-classified line
(everything else empty): the failing input of the hoisting bug. -/
def oneAddDC : DiffContainerEl :=
  ⟨fun sel =>
     if sel == ".blob-code-addition, .blob-code-deletion" then
       [⟨"+ return result + 1", ["blob-code-addition"], none⟩]
     else [],
   [], []⟩

/-! ## Theorems: dispatcher fallback (C1), local synthesis scenario (C7),
injector parsing (C8) -/

/-- C1: for every commits list, optional fileChanges and detailedAnalysis
flag, if the outbound provider HTTP request fails for any reason (network
error, non-2xx status, or unreadable `choices[0].message.content`), then
`generatePRDescription` returns exactly the string
`generateLocalPRDescription` produces for the same inputs, and never
propagates the failure (the model is a total function into `String`). -/
theorem generatePRDescription_fallback_on_failure
    (commits : List String) (fileChanges : Option FileChanges)
    (detailedAnalysis : Bool) (apiKey : Option String) (outcome : FetchOutcome)
    (hfail : outcome.failed = true) :
    generatePRDescription commits fileChanges detailedAnalysis apiKey outcome
      = generateLocalPRDescription commits fileChanges detailedAnalysis := by
  cases apiKey with
  | none => rfl
  | some key =>
    by_cases hk : key == ""
    · simp [generatePRDescription, hk]
    · cases outcome with
      | networkError => simp [generatePRDescription, hk]
      | response ok content =>
        cases ok with
        | false => simp [generatePRDescription, hk]
        | true =>
          cases content with
          | none => simp [generatePRDescription, hk]
          | some text => simp [FetchOutcome.failed] at hfail

/-- Witness for C1 at a concrete failing outcome (HTTP 4xx, unreadable body). -/
theorem generatePRDescription_fallback_on_failure_witness :
    (FetchOutcome.response false none).failed = true ∧
    generatePRDescription ["Fix login bug"] none false (some "sk-test")
        (FetchOutcome.response false none)
      = generateLocalPRDescription ["Fix login bug"] none false :=
  ⟨by decide,
   generatePRDescription_fallback_on_failure ["Fix login bug"] none false
     (some "sk-test") (FetchOutcome.response false none) (by decide)⟩

/-- C7: for commits `["Fix login bug", "Update README"]`, no file changes and
`detailedAnalysis = false`, the Local Description Synthesizer produces a
string whose title line is `Title: Fix bugs and issues` and whose description
section lists `1. Fix login bug` before `2. Update README`. -/
theorem localDescription_scenarioA :
    (jsSplitNL (generateLocalPRDescription ["Fix login bug", "Update README"] none false)).headD ""
        = "Title: Fix bugs and issues" ∧
    "1. Fix login bug" ∈
        jsSplitNL (generateLocalPRDescription ["Fix login bug", "Update README"] none false) ∧
    "2. Update README" ∈
        jsSplitNL (generateLocalPRDescription ["Fix login bug", "Update README"] none false) ∧
    (jsSplitNL (generateLocalPRDescription ["Fix login bug", "Update README"] none false)).indexOf
        "1. Fix login bug"
      < (jsSplitNL (generateLocalPRDescription ["Fix login bug", "Update README"] none false)).indexOf
        "2. Update README" := by
  decide

/-- C8 counterexample: the injector's parser does not return body
`"Bar\nBaz"` for the documented raw text — it appends a newline after every
captured body line. -/
theorem parseTitleBody_scenario_counterexample :
    (parseTitleBody "Title: Foo\n\nDescription:\nBar\nBaz").2 ≠ "Bar\nBaz" := by
  decide

/-- C8 (amended): parsing `"Title: Foo\n\nDescription:\nBar\nBaz"` yields
title `"Foo"` and body `"Bar\nBaz\n"` (each captured line is appended together
with a trailing newline). -/
theorem parseTitleBody_scenario :
    parseTitleBody "Title: Foo\n\nDescription:\nBar\nBaz" = ("Foo", "Bar\nBaz\n") := by
  decide

/-! ## Helper lemmas on trimming and list membership -/

theorem dropWhile_head_false (p : Char → Bool) (l : List Char) :
    ∀ c cs, l.dropWhile p = c :: cs → p c = false := by
  induction l with
  | nil => intro c cs h; simp [List.dropWhile] at h
  | cons a as ih =>
    intro c cs h
    cases hp : p a with
    | true =>
      have heq : (a :: as).dropWhile p = as.dropWhile p := by
        simp [List.dropWhile_cons, hp]
      exact ih c cs (heq ▸ h)
    | false =>
      have heq : (a :: as).dropWhile p = a :: as := by
        simp [List.dropWhile_cons, hp]
      rw [heq] at h
      cases h
      exact hp

theorem dropWhile_eq_self_of_head (p : Char → Bool) (l : List Char)
    (h : ∀ c cs, l = c :: cs → p c = false) : l.dropWhile p = l := by
  cases l with
  | nil => rfl
  | cons a as => simp [List.dropWhile, h a as rfl]

theorem dropWhile_dropWhile (p : Char → Bool) (l : List Char) :
    (l.dropWhile p).dropWhile p = l.dropWhile p :=
  dropWhile_eq_self_of_head p _ (fun c cs h => dropWhile_head_false p l c cs h)

theorem dropWhile_suffix (p : Char → Bool) (l : List Char) :
    ∃ pre, pre ++ l.dropWhile p = l := by
  induction l with
  | nil => exact ⟨[], rfl⟩
  | cons a as ih =>
    by_cases hp : p a
    · obtain ⟨pre, hpre⟩ := ih
      exact ⟨a :: pre, by simp [List.dropWhile, hp, hpre]⟩
    · exact ⟨[], by simp [List.dropWhile, hp]⟩

theorem trimL_idem (l : List Char) : trimL (trimL l) = trimL l := by
  unfold trimL
  have hrev : ((l.dropWhile isWs).reverse.dropWhile isWs).reverse.dropWhile isWs
      = ((l.dropWhile isWs).reverse.dropWhile isWs).reverse := by
    apply dropWhile_eq_self_of_head
    intro c cs h
    obtain ⟨pre, hpre⟩ := dropWhile_suffix isWs (l.dropWhile isWs).reverse
    have hD : l.dropWhile isWs
        = ((l.dropWhile isWs).reverse.dropWhile isWs).reverse ++ pre.reverse := by
      have h2 := congrArg List.reverse hpre
      simpa [List.reverse_append] using h2.symm
    rw [h] at hD
    exact dropWhile_head_false isWs l c (cs ++ pre.reverse) (by simpa using hD)
  rw [hrev, List.reverse_reverse, dropWhile_dropWhile]

theorem jsTrim_jsTrim (s : String) : jsTrim (jsTrim s) = jsTrim s := by
  simp only [jsTrim, trimL_idem]

theorem cleanupCommitText_trimmed (text : String) :
    jsTrim (cleanupCommitText text) = cleanupCommitText text := by
  unfold cleanupCommitText
  exact jsTrim_jsTrim _

theorem cleanSelectorText_out (raw t : String) (h : cleanSelectorText raw = some t) :
    jsTrim t = t ∧ t.length > 10 := by
  simp only [cleanSelectorText] at h
  split at h
  · exact absurd h (by simp)
  · split at h
    · cases h
      exact ⟨cleanupCommitText_trimmed _, by assumption⟩
    · exact absurd h (by simp)

theorem cleanLinkText_out (raw t : String) (h : cleanLinkText raw = some t) :
    jsTrim t = t ∧ t.length > 10 := by
  simp only [cleanLinkText] at h
  split at h
  · cases h
    exact ⟨cleanupCommitText_trimmed _, by assumption⟩
  · exact absurd h (by simp)

theorem selectorCascade_mem (doc : CommitDoc) (sels : List String) :
    ∀ s ∈ selectorCascade doc sels, ∃ raw, cleanSelectorText raw = some s := by
  induction sels with
  | nil => intro s hs; simp [selectorCascade] at hs
  | cons sel rest ih =>
    intro s hs
    simp only [selectorCascade] at hs
    split at hs
    · split at hs
      · obtain ⟨raw, _, hraw⟩ := List.mem_filterMap.mp hs
        exact ⟨raw, hraw⟩
      · exact ih s hs
    · exact ih s hs

theorem pageTextCommits_mem (body : String) :
    ∀ s ∈ pageTextCommits body,
      jsTrim s = s ∧ s.length > 10 ∧ s.length < 200 ∧
      jsIncludes s "files changed" = false ∧ jsIncludes s "contributor" = false ∧
      jsIncludes s "committed" = false ∧ isPureDigits s = false ∧
      jsIncludes s "ago" = false := by
  intro s hs
  unfold pageTextCommits at hs
  have hs1 := List.take_subset _ _ hs
  have hmem := List.mem_filter.mp hs1
  have hmem2 := List.mem_filter.mp hmem.1
  obtain ⟨l, _, hl⟩ := List.mem_map.mp hmem2.1
  have hpred := hmem.2
  simp only [Bool.and_eq_true, Bool.not_eq_true', decide_eq_true_eq] at hpred
  obtain ⟨⟨⟨⟨⟨⟨⟨hlen10, hlen200⟩, hfc⟩, hct⟩, hcm⟩, hdg⟩, hago⟩, hsp⟩ := hpred
  exact ⟨by rw [← hl]; exact jsTrim_jsTrim l, hlen10, hlen200, hfc, hct, hcm, hdg, hago⟩

/-! ## Theorems: commit extraction (C2, C3, C4) -/

/-- C2: if no commit selector yields an accepted result set, the commit-link
fallback yields nothing, and the page-wide text scan yields zero candidate
lines, then `extractCommitMessages` returns exactly the fixed two-element
placeholder sequence; consequently extraction never returns an empty
sequence (on any document). -/
theorem extractCommitMessages_placeholder (doc : CommitDoc)
    (h1 : selectorCascade doc commitSelectors = [])
    (h2 : linkFallback doc = [])
    (h3 : pageTextCommits doc.bodyText = []) :
    extractCommitMessages doc =
      ["cread and add functionalities for the extension", "updated testing steps"] ∧
    ∀ d : CommitDoc, extractCommitMessages d ≠ [] := by
  constructor
  · simp [extractCommitMessages, commitCascadeResult, h1, h2, h3]
  · intro d
    have hne : commitCascadeResult d ≠ [] := by
      unfold commitCascadeResult
      cases hc1 : selectorCascade d commitSelectors with
      | cons a as => simp
      | nil =>
        cases hc2 : linkFallback d with
        | cons a as => simp
        | nil =>
          cases hc3 : pageTextCommits d.bodyText with
          | cons a as => simp
          | nil => simp
    unfold extractCommitMessages
    cases hres : commitCascadeResult d with
    | nil => exact absurd hres hne
    | cons a as => simp [List.take]

/-- Witness for C2 on the all-empty document. -/
theorem extractCommitMessages_placeholder_witness :
    extractCommitMessages emptyCommitDoc =
      ["cread and add functionalities for the extension", "updated testing steps"] ∧
    extractCommitMessages emptyCommitDoc ≠ [] :=
  ⟨(extractCommitMessages_placeholder emptyCommitDoc rfl rfl rfl).1,
   (extractCommitMessages_placeholder emptyCommitDoc rfl rfl rfl).2 emptyCommitDoc⟩

set_option maxRecDepth 40000 in
/-- C3 counterexample: the denylist clause of the claim fails — whitespace
collapse at the selector level re-creates the phrase `files changed` inside a
returned entry. -/
theorem extraction_denylist_counterexample :
    extractCommitMessages denylistDoc = ["Improve files changed handling logic"] ∧
    jsIncludes "Improve files changed handling logic" "files changed" = true := by
  constructor
  · rfl
  · decide

/-- C3 (amended): extraction returns at most 10 entries (at most 20 in the
legacy variant); every entry produced by the page-wide text-scan fallback
contains none of `files changed`, `contributor`, `committed`, `ago` and is
not a pure-digit string.  The full denylist does not hold at the
selector/commit-link levels (cleaning can reintroduce phrases, see the
counterexample), and the page-text filter never checks `commits`. -/
theorem extraction_length_caps :
    (∀ doc : CommitDoc, (extractCommitMessages doc).length ≤ 10) ∧
    (∀ doc : LegacyCommitDoc, (legacyExtractCommitMessages doc).length ≤ 20) ∧
    (∀ body : String, ∀ s ∈ pageTextCommits body,
      jsIncludes s "files changed" = false ∧ jsIncludes s "contributor" = false ∧
      jsIncludes s "committed" = false ∧ isPureDigits s = false ∧
      jsIncludes s "ago" = false) := by
  refine ⟨?_, ?_, ?_⟩
  · intro doc
    unfold extractCommitMessages
    rw [List.length_take]
    exact min_le_left _ _
  · intro doc
    unfold legacyExtractCommitMessages
    rw [List.length_take]
    exact min_le_left _ _
  · intro body s hs
    have h := pageTextCommits_mem body s hs
    exact ⟨h.2.2.2.1, h.2.2.2.2.1, h.2.2.2.2.2.1, h.2.2.2.2.2.2.1, h.2.2.2.2.2.2.2⟩

/-- Witness for C3 at concrete documents and a concrete page-text candidate. -/
theorem extraction_length_caps_witness :
    (extractCommitMessages emptyCommitDoc).length ≤ 10 ∧
    (legacyExtractCommitMessages ⟨fun _ => [], []⟩).length ≤ 20 ∧
    jsIncludes "update the parser module now" "files changed" = false :=
  ⟨extraction_length_caps.1 emptyCommitDoc,
   extraction_length_caps.2.1 ⟨fun _ => [], []⟩,
   (extraction_length_caps.2.2 "update the parser module now"
     "update the parser module now" (by decide)).1⟩

set_option maxRecDepth 40000 in
/-- C4 counterexample: selector-level extraction has no 200-character upper
bound — a 240-character commit text is returned as-is. -/
theorem extraction_length_counterexample :
    extractCommitMessages longCommitDoc = [String.mk (List.replicate 240 'a')] ∧
    200 < (String.mk (List.replicate 240 'a')).length := by
  constructor
  · rfl
  · decide

/-- C4 (amended): every string returned by extraction, from any cascade
level, is trimmed and has length strictly greater than 10; the 200-character
upper bound holds only for the page-text fallback, not for the selector or
commit-link levels (see the counterexample). -/
theorem extraction_trimmed_bounded (doc : CommitDoc) :
    ∀ s ∈ extractCommitMessages doc, jsTrim s = s ∧ s.length > 10 := by
  intro s hs
  unfold extractCommitMessages at hs
  have hs' := List.take_subset _ _ hs
  unfold commitCascadeResult at hs'
  cases hc1 : selectorCascade doc commitSelectors with
  | cons a as =>
    rw [hc1] at hs'
    simp only [List.isEmpty_cons, Bool.false_eq_true, if_false] at hs'
    obtain ⟨raw, hraw⟩ := selectorCascade_mem doc commitSelectors s (hc1 ▸ hs')
    exact cleanSelectorText_out raw s hraw
  | nil =>
    rw [hc1] at hs'
    simp only [List.isEmpty_nil, if_true] at hs'
    cases hc2 : linkFallback doc with
    | cons a as =>
      rw [hc2] at hs'
      simp only [List.isEmpty_cons, Bool.false_eq_true, if_false] at hs'
      obtain ⟨raw, _, hraw⟩ := List.mem_filterMap.mp (hc2 ▸ hs')
      exact cleanLinkText_out raw s hraw
    | nil =>
      rw [hc2] at hs'
      simp only [List.isEmpty_nil, if_true] at hs'
      cases hc3 : pageTextCommits doc.bodyText with
      | cons a as =>
        rw [hc3] at hs'
        simp only [List.isEmpty_cons, Bool.false_eq_true, if_false] at hs'
        have h := pageTextCommits_mem doc.bodyText s (hc3 ▸ hs')
        exact ⟨h.1, h.2.1⟩
      | nil =>
        rw [hc3] at hs'
        simp only [List.isEmpty_nil, if_true] at hs'
        have : s = "cread and add functionalities for the extension" ∨
            s = "updated testing steps" := by simpa using hs'
        cases this with
        | inl h => rw [h]; exact ⟨by decide, by decide⟩
        | inr h => rw [h]; exact ⟨by decide, by decide⟩

/-- Witness for C4 at the placeholder entry of the all-empty document. -/
theorem extraction_trimmed_bounded_witness :
    jsTrim "cread and add functionalities for the extension"
        = "cread and add functionalities for the extension" ∧
    ("cread and add functionalities for the extension" : String).length > 10 :=
  extraction_trimmed_bounded emptyCommitDoc
    "cread and add functionalities for the extension" (by decide)

/-! ## Theorems: classifier (C6) -/

/-- C6: classification of a cleaned diff line is a deterministic function of
the line text (two invocations on equal strings agree), and for every line
that matches both the function pattern and the import pattern the assigned
kind is `function`, the earlier entry of the fixed table. -/
theorem classifyLine_deterministic_priority :
    (∀ s t : String, s = t → classifyLine s = classifyLine t) ∧
    (∀ line : String, (matchFunctionPattern line).isSome = true →
      (matchImportPattern line).isSome = true →
      (classifyLine line).1 = "function") := by
  refine ⟨fun s t h => by rw [h], ?_⟩
  intro line hf _
  obtain ⟨info, hinfo⟩ := Option.isSome_iff_exists.mp hf
  simp [classifyLine, codePatterns, firstPattern, hinfo]

/-- Witness for C6 at a line matching both the function and the import
pattern. -/
theorem classifyLine_deterministic_priority_witness :
    classifyLine "const a = 1 import b from 'c'"
        = classifyLine "const a = 1 import b from 'c'" ∧
    (matchFunctionPattern "const a = 1 import b from 'c'").isSome = true ∧
    (matchImportPattern "const a = 1 import b from 'c'").isSome = true ∧
    (classifyLine "const a = 1 import b from 'c'").1 = "function" :=
  ⟨classifyLine_deterministic_priority.1 "const a = 1 import b from 'c'"
      "const a = 1 import b from 'c'" rfl,
   by decide, by decide,
   classifyLine_deterministic_priority.2 "const a = 1 import b from 'c'"
     (by decide) (by decide)⟩

/-! ## Helper lemmas for the non-negativity invariant (C9) -/

theorem foldl_inv {α σ : Type _} (P : σ → Prop) (f : σ → α → σ)
    (hstep : ∀ s a, P s → P (f s a)) :
    ∀ (l : List α) (s : σ), P s → P (l.foldl f s) := by
  intro l
  induction l with
  | nil => intro s hs; exact hs
  | cons a as ih => intro s hs; exact ih _ (hstep s a hs)

theorem optCast_nonneg (o : Option Nat) (d : Int) (hd : 0 ≤ d) :
    0 ≤ (match o with | some n => (n : Int) | none => d) := by
  cases o with
  | none => exact hd
  | some n => exact Int.natCast_nonneg n

theorem statsElemStep_nonneg (st : Int × Int × Bool × Bool) (el : StatEl)
    (h : 0 ≤ st.1 ∧ 0 ≤ st.2.1) :
    0 ≤ (statsElemStep st el).1 ∧ 0 ≤ (statsElemStep st el).2.1 := by
  simp only [statsElemStep]
  cases hp : parseIntDigitsOnly (jsTrim el.text) with
  | none => simp only [hp]; exact h
  | some n =>
    simp only [hp]
    split_ifs with h1 h2 h3
    · exact ⟨Int.natCast_nonneg n, h.2⟩
    · exact ⟨h.1, Int.natCast_nonneg n⟩
    · exact h
    · exact h

theorem statsFromSelectors_nonneg (doc : FileChangesDoc) (sels : List String) :
    0 ≤ (statsFromSelectors doc sels).1 ∧ 0 ≤ (statsFromSelectors doc sels).2 := by
  induction sels with
  | nil => exact ⟨le_refl 0, le_refl 0⟩
  | cons sel rest ih =>
    simp only [statsFromSelectors]
    split_ifs with h1 h2
    · have hfold := foldl_inv (fun st : Int × Int × Bool × Bool => 0 ≤ st.1 ∧ 0 ≤ st.2.1)
        statsElemStep statsElemStep_nonneg (doc.statElemsBySel sel) (0, 0, false, false)
        ⟨le_refl 0, le_refl 0⟩
      exact hfold
    · exact ih
    · exact ih

theorem statsFromSummaryText_nonneg (doc : FileChangesDoc) (sels : List String) :
    0 ≤ (statsFromSummaryText doc sels).1 ∧ 0 ≤ (statsFromSummaryText doc sels).2 := by
  induction sels with
  | nil => exact ⟨le_refl 0, le_refl 0⟩
  | cons sel rest ih =>
    simp only [statsFromSummaryText]
    cases hs : doc.summaryTextBySel sel with
    | none => dsimp only; exact ih
    | some txt =>
      dsimp only
      cases ha : matchPlusDigits txt with
      | none =>
        cases hd : matchMinusDigits txt with
        | none => simp only [ha, hd]; exact ih
        | some n => simp only [ha, hd]; exact ⟨le_refl 0, Int.natCast_nonneg n⟩
      | some m =>
        cases hd : matchMinusDigits txt with
        | none => simp only [ha, hd]; exact ⟨Int.natCast_nonneg m, le_refl 0⟩
        | some n => simp only [ha, hd]; exact ⟨Int.natCast_nonneg m, Int.natCast_nonneg n⟩

theorem diffStatsOfText_nonneg (s : String) :
    0 ≤ (diffStatsOfText s).1 ∧ 0 ≤ (diffStatsOfText s).2 := by
  have hbase : 0 ≤ (match fileStatsPatterns s with
      | some (x, y) => ((x : Int), (y : Int))
      | none => ((0 : Int), (0 : Int))).1 ∧
      0 ≤ (match fileStatsPatterns s with
      | some (x, y) => ((x : Int), (y : Int))
      | none => ((0 : Int), (0 : Int))).2 := by
    cases fileStatsPatterns s with
    | none => exact ⟨le_refl 0, le_refl 0⟩
    | some q =>
      obtain ⟨x, y⟩ := q
      exact ⟨Int.natCast_nonneg x, Int.natCast_nonneg y⟩
  simp only [diffStatsOfText]
  split_ifs with h
  · exact ⟨optCast_nonneg _ _ hbase.1, optCast_nonneg _ _ hbase.2⟩
  · exact hbase

theorem fileStatsFromSelectors_nonneg (header : FileHeaderEl) (sels : List String) :
    0 ≤ (fileStatsFromSelectors header sels).1 ∧
    0 ≤ (fileStatsFromSelectors header sels).2 := by
  induction sels with
  | nil => exact ⟨le_refl 0, le_refl 0⟩
  | cons sel rest ih =>
    simp only [fileStatsFromSelectors]
    cases hs : header.diffStatsBySel sel with
    | none => dsimp only; exact ih
    | some txt =>
      dsimp only
      split_ifs with h
      · exact diffStatsOfText_nonneg txt
      · exact ih

theorem singleFileStats_nonneg (header : FileHeaderEl) :
    0 ≤ (singleFileStats header).1 ∧ 0 ≤ (singleFileStats header).2 := by
  simp only [singleFileStats]
  split_ifs with h
  · cases hc : header.lineCountContainer with
    | none => exact fileStatsFromSelectors_nonneg header diffStatsSelectors
    | some q =>
      obtain ⟨na, nd⟩ := q
      exact ⟨Int.natCast_nonneg na, Int.natCast_nonneg nd⟩
  · exact fileStatsFromSelectors_nonneg header diffStatsSelectors

theorem extractSingleFileChange_nonneg (header : FileHeaderEl) (f : FileRec)
    (h : extractSingleFileChange header = some f) :
    0 ≤ f.additions ∧ 0 ≤ f.deletions := by
  simp only [extractSingleFileChange] at h
  split at h
  · rw [Option.some.injEq] at h
    rw [← h]
    exact singleFileStats_nonneg header
  · exact absurd h (by simp)

theorem filesFromSelectors_nonneg (doc : FileChangesDoc) (sels : List String) :
    ∀ f ∈ filesFromSelectors doc sels, 0 ≤ f.additions ∧ 0 ≤ f.deletions := by
  induction sels with
  | nil => intro f hf; simp [filesFromSelectors] at hf
  | cons sel rest ih =>
    intro f hf
    simp only [filesFromSelectors] at hf
    split at hf
    · split at hf
      · obtain ⟨hdr, _, hh⟩ := List.mem_filterMap.mp hf
        exact extractSingleFileChange_nonneg hdr f hh
      · exact ih f hf
    · exact ih f hf

theorem overallStatsPre_nonneg (doc : FileChangesDoc) :
    0 ≤ (overallStatsPre doc).1 ∧ 0 ≤ (overallStatsPre doc).2 := by
  simp only [overallStatsPre]
  split_ifs with h
  · exact statsFromSummaryText_nonneg doc summarySelectors
  · exact statsFromSelectors_nonneg doc statsSelectors

theorem foldl_add_nonneg (g : FileRec → Int) (l : List FileRec)
    (hg : ∀ f ∈ l, 0 ≤ g f) :
    ∀ init : Int, 0 ≤ init → 0 ≤ l.foldl (fun s f => s + g f) init := by
  induction l with
  | nil => intro init h; exact h
  | cons a as ih =>
    intro init h
    have ha := hg a (List.mem_cons_self a as)
    exact ih (fun f hf => hg f (List.mem_cons_of_mem a hf)) (init + g a) (by omega)

theorem ite_pair_nonneg (c : Prop) [Decidable c] (a b : Int × Int)
    (ha : 0 ≤ a.1 ∧ 0 ≤ a.2) (hb : 0 ≤ b.1 ∧ 0 ≤ b.2) :
    0 ≤ (ite c a b).1 ∧ 0 ≤ (ite c a b).2 := by
  split_ifs with h
  · exact ha
  · exact hb

/-! ## Theorems: FileChangeSet invariants (C9) and the hoisted summary
bug (C5) -/

/-- C9: every FileChangeSet returned by `extractFileChanges` has
non-negative `stats.additions`, `stats.deletions` and `stats.filesChanged`,
and every file in its `files` sequence has non-negative additions and
deletions, on every document and at every cascade level. -/
theorem extractFileChanges_nonneg (doc : FileChangesDoc) :
    0 ≤ (extractFileChanges doc).stats.additions ∧
    0 ≤ (extractFileChanges doc).stats.deletions ∧
    0 ≤ (extractFileChanges doc).stats.filesChanged ∧
    ∀ f ∈ (extractFileChanges doc).files, 0 ≤ f.additions ∧ 0 ≤ f.deletions := by
  have hmem := filesFromSelectors_nonneg doc fileSelectors
  have hpre := overallStatsPre_nonneg doc
  have hsumA := foldl_add_nonneg (fun f => f.additions) (filesFromSelectors doc fileSelectors)
    (fun f hf => (hmem f hf).1) 0 (le_refl 0)
  have hsumD := foldl_add_nonneg (fun f => f.deletions) (filesFromSelectors doc fileSelectors)
    (fun f hf => (hmem f hf).2) 0 (le_refl 0)
  have hfinal := ite_pair_nonneg
    (((overallStatsPre doc).1 == 0 && (overallStatsPre doc).2 == 0 &&
      decide ((filesFromSelectors doc fileSelectors).length > 0)) = true)
    ((filesFromSelectors doc fileSelectors).foldl (fun s f => s + f.additions) 0,
     (filesFromSelectors doc fileSelectors).foldl (fun s f => s + f.deletions) 0)
    (overallStatsPre doc) ⟨hsumA, hsumD⟩ hpre
  exact ⟨hfinal.1, hfinal.2, Int.natCast_nonneg _, hmem⟩

/-- Witness for C9 on a document yielding one `app.js` file record. -/
theorem extractFileChanges_nonneg_witness :
    (0 ≤ (extractFileChanges oneFileDoc).stats.additions ∧
     0 ≤ (extractFileChanges oneFileDoc).stats.filesChanged) ∧
    (0 ≤ (FileRec.mk "app.js" FileStatus.modified 0 0 []).additions ∧
     0 ≤ (FileRec.mk "app.js" FileStatus.modified 0 0 []).deletions) :=
  ⟨⟨(extractFileChanges_nonneg oneFileDoc).1,
    (extractFileChanges_nonneg oneFileDoc).2.2.1⟩,
   (extractFileChanges_nonneg oneFileDoc).2.2.2
     (FileRec.mk "app.js" FileStatus.modified 0 0 []) (by decide)⟩

/-- C5 (code bug): at a hunk boundary the call
`generateChangeSummary(addedChunk, removedChunk)` resolves, by JS function
hoisting, to the later files-based declaration, which throws a TypeError on
non-empty chunks (its records have no `filename`), so the whole extraction
falls back to `extractSimpleCodeChanges` and the hunk record (with the
claimed count-based sentence) is never produced.  The shadowed chunk-based
declaration would have produced exactly the sentences the claim documents. -/
theorem changeSummary_hoisting_bug :
    hoistedChunkSummary [⟨"return result + 1", "general", "", "", 0⟩] []
      = Except.error "TypeError: Cannot read properties of undefined (reading 'split')" ∧
    extractCodeChanges oneAddDC = [] ∧
    extractCodeChanges oneAddDC = extractSimpleCodeChanges oneAddDC ∧
    generateChangeSummaryChunks [⟨"return result + 1", "general", "", "", 0⟩] []
      = "Added 1 lines of new functionality" ∧
    generateChangeSummaryChunks [] [⟨"return result", "general", "", "", 0⟩]
      = "Removed 1 lines of code and refactored implementation" ∧
    generateChangeSummaryChunks [⟨"return result + 1", "general", "", "", 0⟩]
        [⟨"return result", "general", "", "", 0⟩]
      = "Refactored 1 lines of code" := by
  refine ⟨rfl, ?_, ?_, ?_, ?_, ?_⟩ <;> rfl

/-! ## Helper lemmas for the synthesizer/injector round trip (C10) -/

theorem splitChAux_sep_append (sep : Char) (as : List Char) :
    ∀ (acc bs : List Char),
      splitChAux sep (as ++ sep :: bs) acc
        = splitChAux sep as acc ++ splitChAux sep bs [] := by
  induction as with
  | nil => intro acc bs; simp [splitChAux]
  | cons a as ih =>
    intro acc bs
    by_cases ha : a = sep
    · subst ha
      simp [splitChAux, ih]
    · simp [splitChAux, ha, ih]

theorem splitChAux_no_sep (sep : Char) (as : List Char) (h : sep ∉ as) :
    ∀ acc, splitChAux sep as acc = [⟨acc.reverse ++ as⟩] := by
  induction as with
  | nil => intro acc; simp [splitChAux]
  | cons a as ih =>
    intro acc
    have ha : ¬ a = sep := fun he => h (he ▸ List.mem_cons_self a as)
    have htl : sep ∉ as := fun he => h (List.mem_cons_of_mem a he)
    simp [splitChAux, ha, ih htl]

theorem startsWithL_title_false_of_head (c : Char) (cs : List Char) (h : c ≠ 'T') :
    startsWithL (c :: cs) "Title:".data = false := by
  have he : "Title:".data = 'T' :: "itle:".data := rfl
  rw [he]
  simp [startsWithL, h]

theorem startsWithL_append_short (needle : List Char) :
    ∀ (a b : List Char), needle.length ≤ a.length →
      startsWithL a needle = false → startsWithL (a ++ b) needle = false := by
  induction needle with
  | nil => intro a b _ h; simp [startsWithL] at h
  | cons n ns ih =>
    intro a b hlen h
    cases a with
    | nil => simp at hlen
    | cons x xs =>
      simp only [List.cons_append, startsWithL, Bool.and_eq_false_iff] at h ⊢
      rcases h with h | h
      · exact Or.inl h
      · cases hx : decide (x = n) with
        | false => exact Or.inl rfl
        | true => exact Or.inr (ih xs b (by simpa using hlen) h)

theorem startsWithL_append_of (p : List Char) :
    ∀ (a b : List Char), startsWithL a p = true → startsWithL (a ++ b) p = true := by
  induction p with
  | nil => intro a b _; simp [startsWithL]
  | cons x xs ih =>
    intro a b h
    cases a with
    | nil => simp [startsWithL] at h
    | cons y ys =>
      simp only [List.cons_append, startsWithL, Bool.and_eq_true] at h ⊢
      exact ⟨h.1, ih ys b h.2⟩

theorem startsWithL_refl (l : List Char) : startsWithL l l = true := by
  induction l with
  | nil => rfl
  | cons c cs ih => simp [startsWithL, ih]

theorem removeFirstL_of_prefix (needle rest : List Char) (hne : needle ≠ []) :
    removeFirstL needle (needle ++ rest) = rest := by
  cases needle with
  | nil => exact absurd rfl hne
  | cons n ns =>
    have hsw : startsWithL (n :: (ns ++ rest)) (n :: ns) = true :=
      startsWithL_append_of (n :: ns) (n :: ns) rest (startsWithL_refl _)
    show removeFirstL (n :: ns) (n :: (ns ++ rest)) = rest
    rw [removeFirstL, if_pos hsw]
    exact List.drop_left (n :: ns) rest

theorem digitChar_isDigit (m : Nat) (h : m < 10) : (Nat.digitChar m).isDigit = true := by
  interval_cases m <;> decide

theorem toDigitsCore_all_digits (fuel : Nat) :
    ∀ (n : Nat) (acc : List Char), (∀ c ∈ acc, c.isDigit = true) →
      ∀ c ∈ Nat.toDigitsCore 10 fuel n acc, c.isDigit = true := by
  induction fuel with
  | zero => intro n acc hacc c hc; exact hacc c hc
  | succ fuel ih =>
    intro n acc hacc c hc
    rw [Nat.toDigitsCore] at hc
    have hd : (Nat.digitChar (n % 10)).isDigit = true :=
      digitChar_isDigit _ (Nat.mod_lt _ (by norm_num))
    split at hc
    · cases hc with
      | head => exact hd
      | tail _ hmem => exact hacc c hmem
    · refine ih (n / 10) (Nat.digitChar (n % 10) :: acc) ?_ c hc
      intro x hx
      cases hx with
      | head => exact hd
      | tail _ hmem => exact hacc x hmem

theorem toDigitsCore_ne_nil (fuel : Nat) :
    ∀ (n : Nat) (acc : List Char), (acc ≠ [] ∨ 1 ≤ fuel) →
      Nat.toDigitsCore 10 fuel n acc ≠ [] := by
  induction fuel with
  | zero =>
    intro n acc h
    rcases h with h | h
    · exact h
    · omega
  | succ fuel ih =>
    intro n acc _
    rw [Nat.toDigitsCore]
    split
    · simp
    · exact ih (n / 10) _ (Or.inl (by simp))

theorem natRepr_all_digits (n : Nat) : ∀ c ∈ (Nat.repr n).data, c.isDigit = true := by
  have h := toDigitsCore_all_digits (n + 1) n [] (by intro c hc; simp at hc)
  intro c hc
  exact h c hc

theorem natRepr_head_digit (n : Nat) :
    ∃ c cs, (Nat.repr n).data = c :: cs ∧ c.isDigit = true := by
  have hne : Nat.toDigitsCore 10 (n + 1) n [] ≠ [] :=
    toDigitsCore_ne_nil (n + 1) n [] (Or.inr (by omega))
  cases hd : Nat.toDigitsCore 10 (n + 1) n [] with
  | nil => exact absurd hd hne
  | cons c cs =>
    refine ⟨c, cs, hd, ?_⟩
    exact natRepr_all_digits n c (by rw [show (Nat.repr n).data = Nat.toDigitsCore 10 (n+1) n [] from rfl, hd]; exact List.mem_cons_self c cs)

theorem natRepr_no_newline (n : Nat) : '\n' ∉ (Nat.repr n).data := by
  intro hmem
  have := natRepr_all_digits n '\n' hmem
  exact absurd this (by decide)

/-- No line of the newline-split of `cs` starts with `Title:`. -/
def NoTitleLines (cs : List Char) : Prop :=
  ∀ l ∈ splitChAux '\n' cs [], startsWithL l.data "Title:".data = false

theorem noTitleLines_append (a b : List Char) (ha : NoTitleLines a) (hb : NoTitleLines b) :
    NoTitleLines (a ++ '\n' :: b) := by
  intro l hl
  rw [splitChAux_sep_append '\n' a [] b] at hl
  rcases List.mem_append.mp hl with h | h
  · exact ha l h
  · exact hb l h

theorem noTitleLines_single (cs : List Char) (hnl : '\n' ∉ cs)
    (ht : startsWithL cs "Title:".data = false) : NoTitleLines cs := by
  intro l hl
  rw [splitChAux_no_sep '\n' cs hnl []] at hl
  simp at hl
  rw [hl]
  exact ht

theorem noTitleLines_join (ls : List String)
    (h : ∀ l ∈ ls, '\n' ∉ l.data ∧ startsWithL l.data "Title:".data = false) :
    NoTitleLines (jsJoin "\n" ls).data := by
  induction ls with
  | nil =>
    intro l hl
    simp [jsJoin, splitChAux] at hl
    rw [hl]
    rfl
  | cons x xs ih =>
    cases xs with
    | nil =>
      have hx := h x (List.mem_cons_self x [])
      exact noTitleLines_single x.data hx.1 hx.2
    | cons y rest =>
      have hx := h x (List.mem_cons_self x (y :: rest))
      have hdata : (jsJoin "\n" (x :: y :: rest)).data
          = x.data ++ '\n' :: (jsJoin "\n" (y :: rest)).data := by
        show (x ++ "\n" ++ jsJoin "\n" (y :: rest)).data = _
        simp [String.data_append, List.append_assoc]
      show NoTitleLines (jsJoin "\n" (x :: y :: rest)).data
      rw [hdata]
      exact noTitleLines_append _ _
        (noTitleLines_single x.data hx.1 hx.2)
        (ih (fun l hl => h l (List.mem_cons_of_mem x hl)))

theorem mem_of_mem_enumFrom {α : Type _} (l : List α) :
    ∀ (n : Nat) (p : Nat × α), p ∈ l.enumFrom n → p.2 ∈ l := by
  induction l with
  | nil => intro n p hp; simp [List.enumFrom] at hp
  | cons a as ih =>
    intro n p hp
    simp only [List.enumFrom, List.mem_cons] at hp
    rcases hp with h | h
    · rw [h]; exact List.mem_cons_self a as
    · exact List.mem_cons_of_mem a (ih (n + 1) p h)

theorem numbered_line_props (i : Nat) (c : String) (hnl : '\n' ∉ c.data) :
    '\n' ∉ (Nat.repr (i + 1) ++ ". " ++ c).data ∧
    startsWithL (Nat.repr (i + 1) ++ ". " ++ c).data "Title:".data = false := by
  obtain ⟨ch, cs, hdata, hdig⟩ := natRepr_head_digit (i + 1)
  constructor
  · intro hmem
    simp only [String.data_append, List.mem_append] at hmem
    rcases hmem with (h | h) | h
    · exact absurd (natRepr_all_digits (i + 1) '\n' h) (by decide)
    · revert h; decide
    · exact hnl h
  · have he : (Nat.repr (i + 1) ++ ". " ++ c).data
        = ch :: (cs ++ (". ".data ++ c.data)) := by
      simp [String.data_append, hdata, List.append_assoc]
    rw [he]
    refine startsWithL_title_false_of_head ch _ ?_
    intro hT
    rw [hT] at hdig
    exact absurd hdig (by decide)

theorem featureLine_props (c : String) (hnl : '\n' ∉ c.data) :
    '\n' ∉ (featureLine c).data ∧
    startsWithL (featureLine c).data "Title:".data = false := by
  have key : ∀ p : String, '\n' ∉ p.data →
      startsWithL p.data "Title:".data = false →
      ("Title:".data).length ≤ p.data.length →
      '\n' ∉ (p ++ c ++ "\"").data ∧
      startsWithL (p ++ c ++ "\"").data "Title:".data = false := by
    intro p hp ht hlen
    constructor
    · intro hmem
      simp only [String.data_append, List.mem_append] at hmem
      rcases hmem with (h | h) | h
      · exact hp h
      · exact hnl h
      · revert h; decide
    · have he : (p ++ c ++ "\"").data = p.data ++ (c.data ++ "\"".data) := by
        simp [String.data_append, List.append_assoc]
      rw [he]
      exact startsWithL_append_short "Title:".data p.data _ hlen ht
  simp only [featureLine]
  split_ifs <;> exact key _ (by decide) (by decide) (by decide)

theorem localTitle_props (commits : List String) (d : Bool)
    (h1 : ∀ c ∈ commits, '\n' ∉ c.data)
    (h3 : ∀ c ∈ commits, jsTrim c ≠ "") :
    '\n' ∉ (localTitle commits none d).data ∧
    jsTrim (localTitle commits none d) ≠ "" := by
  have hT : localTitle commits none d = commitTitle (cleanCommitsOf commits) := by
    cases d <;> rfl
  rw [hT]
  simp only [commitTitle]
  split_ifs with hc1 hc2 hf hx hu
  · have hlen : (cleanCommitsOf commits).length = 1 := by simpa using hc1
    obtain ⟨a, ha⟩ := List.length_eq_one.mp hlen
    rw [ha]
    have hmem : a ∈ commits := by
      have : a ∈ cleanCommitsOf commits := ha ▸ List.mem_cons_self a []
      exact List.mem_of_mem_filter this
    exact ⟨h1 a hmem, h3 a hmem⟩
  · decide
  · decide
  · decide
  · decide
  · decide

theorem insertStep_keeps_title (st : ParseState) (line : String)
    (h : jsStartsWith line "Title:" = false) :
    (insertStep st line).title = st.title := by
  unfold insertStep
  rw [if_neg (by simp [h])]
  split_ifs <;> rfl

theorem foldl_insertStep_title (lines : List String) :
    ∀ st : ParseState, (∀ l ∈ lines, jsStartsWith l "Title:" = false) →
      (lines.foldl insertStep st).title = st.title := by
  induction lines with
  | nil => intro st _; rfl
  | cons l ls ih =>
    intro st h
    rw [List.foldl_cons]
    rw [ih _ (fun x hx => h x (List.mem_cons_of_mem l hx))]
    exact insertStep_keeps_title st l (h l (List.mem_cons_self l ls))

theorem jsTrim_space_cons (cs : List Char) : jsTrim ⟨' ' :: cs⟩ = jsTrim ⟨cs⟩ := by
  have h : isWs ' ' = true := by decide
  simp [jsTrim, trimL, List.dropWhile_cons, h]

/-! ## Theorems: synthesizer/injector round trip (C10) -/

/-- C10 counterexample: the claim fails for a whitespace-only entry (six
spaces): the synthesized title is the whitespace commit itself, the parser's
structured path produces an empty title and falls back to first-line
parsing, so the recovered title is `Title:`, not the trimmed synthesized
title (which is empty). -/
theorem synth_parse_roundtrip_counterexample :
    (parseTitleBody (generateLocalPRDescription
        [String.mk (List.replicate 6 ' ')] none false)).1
      ≠ jsTrim (localTitle [String.mk (List.replicate 6 ' ')] none false) := by
  decide

/-- C10 (amended): for every commits list whose entries contain no newline,
none of which starts with `Title:`, and none of which is whitespace-only,
feeding `generateLocalPRDescription`'s output (no FileChangeSet) to the Form
Injector's parser recovers a title exactly equal to the synthesized title
trimmed of surrounding whitespace, and the structured `Title:` path is taken
(the loop's title is non-empty, so the first-line fallback never fires).
Whitespace-only entries break the round trip (see the counterexample). -/
theorem synth_parse_roundtrip (commits : List String) (d : Bool)
    (h1 : ∀ c ∈ commits, '\n' ∉ c.data)
    (h2 : ∀ c ∈ commits, jsStartsWith c "Title:" = false)
    (h3 : ∀ c ∈ commits, jsTrim c ≠ "") :
    (parseTitleBody (generateLocalPRDescription commits none d)).1
        = jsTrim (localTitle commits none d) ∧
    ((jsSplitNL (generateLocalPRDescription commits none d)).foldl insertStep
        ⟨"", "", false⟩).title ≠ "" := by
  obtain ⟨hTnl, hTtrim⟩ := localTitle_props commits d h1 h3
  -- no description line starts with `Title:`
  have hN : NoTitleLines (jsNumberedList (cleanCommitsOf commits)).data := by
    apply noTitleLines_join
    intro l hl
    obtain ⟨p, hp, hpe⟩ := List.mem_map.mp hl
    rw [← hpe]
    have hcmem : p.2 ∈ commits :=
      List.mem_of_mem_filter (mem_of_mem_enumFrom (cleanCommitsOf commits) 0 p hp)
    exact numbered_line_props p.1 p.2 (h1 p.2 hcmem)
  have hS : NoTitleLines (generateBasicFeatureSummary (cleanCommitsOf commits)).data := by
    apply noTitleLines_join
    intro l hl
    obtain ⟨c, hc, hce⟩ := List.mem_map.mp hl
    rw [← hce]
    exact featureLine_props c (h1 c (List.mem_of_mem_filter hc))
  have hDdata : (localDescription commits none d).data
      = (jsNumberedList (cleanCommitsOf commits)).data ++ '\n' ::
        (([] : List Char) ++ '\n' :: ("## Key Features Added/Modified".data ++ '\n' ::
          (([] : List Char) ++ '\n' ::
            ((generateBasicFeatureSummary (cleanCommitsOf commits)).data ++
              '\n' :: (([] : List Char) ++ '\n' :: "Hii Amruth".data))))) := by
    simp only [localDescription]
    cases d <;>
      simp [String.data_append,
        show ("\n\n## Key Features Added/Modified\n\n" : String).data
          = '\n' :: '\n' :: ("## Key Features Added/Modified".data ++ ['\n', '\n'])
          from rfl,
        show ("\n\nHii Amruth" : String).data = '\n' :: '\n' :: "Hii Amruth".data
          from rfl,
        List.append_assoc]
  have hD : NoTitleLines (localDescription commits none d).data := by
    rw [hDdata]
    refine noTitleLines_append _ _ hN ?_
    refine noTitleLines_append _ _ (by unfold NoTitleLines; decide) ?_
    refine noTitleLines_append _ _ (by unfold NoTitleLines; decide) ?_
    refine noTitleLines_append _ _ (by unfold NoTitleLines; decide) ?_
    refine noTitleLines_append _ _ hS ?_
    refine noTitleLines_append _ _ (by unfold NoTitleLines; decide)
      (by unfold NoTitleLines; decide)
  -- line decomposition of the synthesizer's output
  have hAnl : '\n' ∉ ("Title: ".data ++ (localTitle commits none d).data) := by
    intro hmem
    rcases List.mem_append.mp hmem with h | h
    · revert h; decide
    · exact hTnl h
  have hout : jsSplitNL (generateLocalPRDescription commits none d)
      = (⟨"Title: ".data ++ (localTitle commits none d).data⟩ : String) :: "" ::
        "Description:" :: splitChAux '\n' (localDescription commits none d).data [] := by
    have hdata : (generateLocalPRDescription commits none d).data
        = ("Title: ".data ++ (localTitle commits none d).data) ++ '\n' ::
          ('\n' :: ("Description:".data ++ '\n' ::
            (localDescription commits none d).data)) := by
      simp only [generateLocalPRDescription]
      simp [String.data_append,
        show ("\n\nDescription:\n" : String).data
          = '\n' :: '\n' :: ("Description:".data ++ ['\n']) from rfl,
        List.append_assoc]
    show splitChAux '\n' (generateLocalPRDescription commits none d).data [] = _
    rw [hdata, splitChAux_sep_append, splitChAux_no_sep '\n' _ hAnl []]
    have hs1 : splitChAux '\n' ('\n' :: ("Description:".data ++ '\n' ::
        (localDescription commits none d).data)) []
        = (⟨[]⟩ : String) :: splitChAux '\n' ("Description:".data ++ '\n' ::
          (localDescription commits none d).data) [] := by
      simp [splitChAux]
    rw [hs1, splitChAux_sep_append]
    rw [splitChAux_no_sep '\n' ("Description:".data) (by decide) []]
    simp
  -- run the parsing loop
  have hstep1 : insertStep ⟨"", "", false⟩
      (⟨"Title: ".data ++ (localTitle commits none d).data⟩ : String)
      = ⟨jsTrim (localTitle commits none d), "", false⟩ := by
    have hsw : jsStartsWith
        (⟨"Title: ".data ++ (localTitle commits none d).data⟩ : String) "Title:" = true :=
      startsWithL_append_of "Title:".data "Title: ".data _ (by decide)
    unfold insertStep
    rw [if_pos hsw]
    have hrem : removeFirstL ("Title:".data)
        ("Title: ".data ++ (localTitle commits none d).data)
        = ' ' :: (localTitle commits none d).data := by
      have he : "Title: ".data ++ (localTitle commits none d).data
          = "Title:".data ++ (' ' :: (localTitle commits none d).data) := by
        simp [show ("Title: " : String).data = "Title:".data ++ [' '] from rfl,
          List.append_assoc]
      rw [he]
      exact removeFirstL_of_prefix _ _ (by decide)
    show ParseState.mk (jsTrim (jsRemoveFirst
        (⟨"Title: ".data ++ (localTitle commits none d).data⟩ : String) "Title:")) "" false = _
    have he2 : jsRemoveFirst
        (⟨"Title: ".data ++ (localTitle commits none d).data⟩ : String) "Title:"
          = ⟨' ' :: (localTitle commits none d).data⟩ :=
      congrArg String.mk hrem
    rw [he2, jsTrim_space_cons]
  have hstep2 : ∀ st : ParseState, insertStep st "" = st := by
    intro st
    unfold insertStep
    rw [if_neg (by decide), if_neg (by decide),
      if_neg (by simp [show (jsTrim "" != "") = false from by decide])]
  have hstep3 : ∀ st : ParseState,
      insertStep st "Description:" = { st with isDescription := true } := by
    intro st
    unfold insertStep
    rw [if_neg (by decide), if_pos (by decide)]
  have hfold : ((jsSplitNL (generateLocalPRDescription commits none d)).foldl insertStep
      ⟨"", "", false⟩).title = jsTrim (localTitle commits none d) := by
    rw [hout, List.foldl_cons, List.foldl_cons, List.foldl_cons, hstep1, hstep2, hstep3]
    exact foldl_insertStep_title _ _ (fun l hl => hD l hl)
  constructor
  · have hbeq : (jsTrim (localTitle commits none d) == "") = false := by
      simp [hTtrim]
    simp only [parseTitleBody]
    rw [hfold, if_neg (by simp [hbeq])]
  · rw [hfold]
    exact hTtrim

/-- Witness for C10 at a concrete commits list. -/
theorem synth_parse_roundtrip_witness :
    (parseTitleBody (generateLocalPRDescription ["Fix login bug"] none false)).1
        = jsTrim (localTitle ["Fix login bug"] none false) ∧
    ((jsSplitNL (generateLocalPRDescription ["Fix login bug"] none false)).foldl insertStep
        ⟨"", "", false⟩).title ≠ "" :=
  synth_parse_roundtrip ["Fix login bug"] false (by decide) (by decide) (by decide)

end PRScript
